import Mathlib

/-!
Verification of the easybook hotel reservation backend (Go) against its
natural-language specification.

The development shallowly embeds the relevant parts of the source:

* the date-slot library of `internal/models/booking.go`
  (`parseBookingDateRange`, `buildDateSlots`, `isBeforeToday`);
* the booking engine and room-calendar ledger of the same file
  (`CreateBooking`, `UpdateBookingByID`, `DeleteBookingByID`,
  `hasBookingConflict`, `reserveRoomCalendar`, `releaseRoomCalendar`);
* the notification read-marking of `internal/models/notifications.go`;
* the presence admission of `internal/models/presence.go`;
* the waitlist subscription/dispatch engine (see the doc comments of the
  definitions modelled from the spec).

Conventions used throughout the embedding:

* Mongo ObjectIDs are abstracted as `Nat`; the hex decoding/encoding of ids
  at the API boundary is elided (the claims under study never hinge on the
  hex syntax of ids, only on identity).
* Go `time.Time` values normalised to local midnight (`toLocalDate`) are
  represented by `CivilDate`, a valid Gregorian calendar date; `Before` /
  `After` on such values compare instants, which for midnight-normalised
  dates in the single fixed server time zone is exactly the day-number
  order `CivilDate.toDays`.
* `time.Now()` is abstracted into explicit `today` / `now` parameters.
* Store transactions (`runAtomically`) are modelled by operations that
  either return the post-state (commit) or an error, in which case the
  caller keeps the unchanged pre-state (all-or-nothing abort).
-/

namespace EasyBook

/-! ## Date-slot library (internal/models/booking.go) -/

/-- Gregorian leap-year rule, as used by Go `time`. -/
def isLeapYear (y : Nat) : Bool :=
  y % 4 == 0 && (y % 100 != 0 || y % 400 == 0)

/-- Number of days in month `m` of year `y` (Go `daysIn`). -/
def daysInMonth (y m : Nat) : Nat :=
  if m = 2 then (if isLeapYear y then 29 else 28)
  else if m = 4 ∨ m = 6 ∨ m = 9 ∨ m = 11 then 30
  else 31

theorem one_le_daysInMonth (y m : Nat) : 1 ≤ daysInMonth y m := by
  unfold daysInMonth
  split
  · split <;> omega
  · split <;> omega

/-- A valid Gregorian calendar date: the model of a Go `time.Time` that has
been normalised to local midnight by `toLocalDate` (Go never materialises an
out-of-range month/day: `time.Date` and `AddDate` normalise). -/
@[ext]
structure CivilDate where
  year : Nat
  month : Nat
  day : Nat
  month_ge : 1 ≤ month
  month_le : month ≤ 12
  day_ge : 1 ≤ day
  day_le : day ≤ daysInMonth year month

instance : DecidableEq CivilDate := fun a b =>
  if h : a.year = b.year ∧ a.month = b.month ∧ a.day = b.day then
    .isTrue (by obtain ⟨h1, h2, h3⟩ := h; ext <;> assumption)
  else
    .isFalse (by intro hab; exact h ⟨congrArg CivilDate.year hab,
      congrArg CivilDate.month hab, congrArg CivilDate.day hab⟩)

/-- Era-based days-from-civil computation on raw year/month/day numbers. -/
def toDaysAux (y m d : Nat) : Nat :=
  (if m ≤ 2 then y + 399 else y + 400) / 400 * 146097
    + ((if m ≤ 2 then y + 399 else y + 400) % 400) * 365
    + ((if m ≤ 2 then y + 399 else y + 400) % 400) / 4
    - ((if m ≤ 2 then y + 399 else y + 400) % 400) / 100
    + ((153 * (if m ≤ 2 then m + 9 else m - 3) + 2) / 5 + d - 1)

/-- Day number of a date (days since an epoch placed far enough in the past
that the result is a `Nat` for every representable date).  This is the
standard era-based civil-from-days computation; it represents the instant
underlying a midnight-normalised Go `time.Time`, so Go `Before`/`After`
comparisons of such values are comparisons of `toDays`. -/
def CivilDate.toDays (dt : CivilDate) : Nat :=
  toDaysAux dt.year dt.month dt.day

/-- The next calendar day: the model of Go `AddDate(0, 0, 1)` on a
midnight-normalised date. -/
def CivilDate.succ (dt : CivilDate) : CivilDate :=
  if h : dt.day < daysInMonth dt.year dt.month then
    ⟨dt.year, dt.month, dt.day + 1, dt.month_ge, dt.month_le, by omega, h⟩
  else if h2 : dt.month < 12 then
    ⟨dt.year, dt.month + 1, 1, by omega, by omega, le_refl 1,
      one_le_daysInMonth _ _⟩
  else
    ⟨dt.year + 1, 1, 1, le_refl 1, by omega, le_refl 1,
      one_le_daysInMonth _ _⟩

theorem toDaysAux_same_month (y m d : Nat) (hd1 : 1 ≤ d) :
    toDaysAux y m (d + 1) = toDaysAux y m d + 1 := by
  unfold toDaysAux
  split_ifs <;> omega

theorem toDaysAux_next_month (y m : Nat) (hm1 : 1 ≤ m) (hm11 : m ≤ 11) :
    toDaysAux y (m + 1) 1 = toDaysAux y m (daysInMonth y m) + 1 := by
  rcases Nat.lt_or_ge m 2 with hm | hm
  · -- January to February
    have : m = 1 := by omega
    subst this
    unfold toDaysAux daysInMonth
    norm_num
  · rcases Nat.lt_or_ge m 3 with hm2 | hm2
    · -- February to March: crosses the March-based year boundary
      have : m = 2 := by omega
      subst this
      have hiff : isLeapYear y = true ↔ (y % 4 = 0 ∧ (y % 100 ≠ 0 ∨ y % 400 = 0)) := by
        simp [isLeapYear]
      unfold toDaysAux daysInMonth
      norm_num
      cases hl : isLeapYear y
      · rw [if_neg (by simp [hl])]
        have hnl : ¬(y % 4 = 0 ∧ (y % 100 ≠ 0 ∨ y % 400 = 0)) := by
          intro hc
          rw [hiff.mpr hc] at hl
          exact absurd hl (by simp)
        omega
      · rw [if_pos (by simp [hl])]
        have hpl := hiff.mp hl
        omega
    · -- March through November: same March-based year on both sides
      interval_cases m <;> (unfold toDaysAux daysInMonth; norm_num)

theorem toDaysAux_next_year (y : Nat) :
    toDaysAux (y + 1) 1 1 = toDaysAux y 12 31 + 1 := by
  unfold toDaysAux
  norm_num
  omega

theorem CivilDate.toDays_succ (dt : CivilDate) :
    dt.succ.toDays = dt.toDays + 1 := by
  obtain ⟨y, m, d, hm1, hm2, hd1, hd2⟩ := dt
  unfold CivilDate.succ
  dsimp only
  split
  · -- stay in the same month
    exact toDaysAux_same_month y m d hd1
  · split
    · -- roll over to the next month of the same year
      rename_i hday hmon
      show toDaysAux y (m + 1) 1 = toDaysAux y m d + 1
      have hd : d = daysInMonth y m := by omega
      subst hd
      exact toDaysAux_next_month y m hm1 (by omega)
    · -- roll over from December 31 to January 1
      rename_i hday hmon
      show toDaysAux (y + 1) 1 1 = toDaysAux y m d + 1
      have hm12 : m = 12 := by omega
      subst hm12
      have hd : d = 31 := by
        simp only [daysInMonth] at hday hd2
        norm_num at hday hd2
        omega
      subst hd
      exact toDaysAux_next_year y

/-- `AddDate(0,0,1)` iterated `n` times. -/
def succIters : Nat → CivilDate → CivilDate
  | 0, dt => dt
  | n + 1, dt => succIters n dt.succ

theorem toDays_succIters (n : Nat) (dt : CivilDate) :
    (succIters n dt).toDays = dt.toDays + n := by
  induction n generalizing dt with
  | zero => rfl
  | succ k ih =>
    show (succIters k dt.succ).toDays = dt.toDays + (k + 1)
    rw [ih dt.succ, CivilDate.toDays_succ]
    omega

/-- Construct a `CivilDate` after validating the ranges, as Go
`time.Parse` does ("month out of range" / "day out of range"). -/
def mkCivilDate? (y m d : Nat) : Option CivilDate :=
  if h : 1 ≤ m ∧ m ≤ 12 ∧ 1 ≤ d ∧ d ≤ daysInMonth y m then
    some ⟨y, m, d, h.1, h.2.1, h.2.2.1, h.2.2.2⟩
  else none

/-- Value of an ASCII digit character (code points 48–57); `none` for
anything else. -/
def charDigit (c : Char) : Option Nat :=
  if 48 ≤ c.toNat ∧ c.toNat ≤ 57 then some (c.toNat - 48) else none

/-- ASCII digit character of a value below ten. -/
def digitChar (a : Nat) : Char :=
  if a ≤ 9 then Char.ofNat (48 + a) else ' '

theorem digitChar_charDigit {c : Char} {a : Nat} (h : charDigit c = some a) :
    digitChar a = c := by
  unfold charDigit at h
  by_cases hc : 48 ≤ c.toNat ∧ c.toNat ≤ 57
  · rw [if_pos hc] at h
    injection h with h2
    unfold digitChar
    rw [if_pos (by omega)]
    have h48 : 48 + a = c.toNat := by omega
    rw [h48]
    exact Char.ofNat_toNat c
  · rw [if_neg hc] at h
    exact Option.noConfusion h

theorem charDigit_le_nine {c : Char} {a : Nat} (h : charDigit c = some a) :
    a ≤ 9 := by
  unfold charDigit at h
  by_cases hc : 48 ≤ c.toNat ∧ c.toNat ≤ 57
  · rw [if_pos hc] at h
    injection h with h2
    omega
  · rw [if_neg hc] at h
    exact Option.noConfusion h

/-- Go `time.ParseInLocation("2006-01-02", s, time.Local)`: exactly four
digits, dash, two digits, dash, two digits, with month and day range-checked
against the Gregorian calendar.  The result is the parsed date (midnight,
server-local zone). -/
def parseISODate (s : String) : Option CivilDate :=
  match s.data with
  | [y3, y2, y1, y0, s1, m1, m0, s2, d1, d0] =>
    if s1 = '-' ∧ s2 = '-' then
      match charDigit y3, charDigit y2, charDigit y1, charDigit y0,
            charDigit m1, charDigit m0, charDigit d1, charDigit d0 with
      | some a, some b, some c, some e, some f, some g, some h, some i =>
        mkCivilDate? (1000 * a + 100 * b + 10 * c + e) (10 * f + g) (10 * h + i)
      | _, _, _, _, _, _, _, _ => none
    else none
  | _ => none

/-- Go `day.Format("2006-01-02")`: zero-padded year (4), month (2), day (2).
The embedding is used only on dates whose year fits in four digits — every
date the embedded operations format was parsed from a four-digit input and
iterated strictly below another parsed date. -/
def CivilDate.format (dt : CivilDate) : String :=
  ⟨[digitChar (dt.year / 1000 % 10), digitChar (dt.year / 100 % 10),
    digitChar (dt.year / 10 % 10), digitChar (dt.year % 10), '-',
    digitChar (dt.month / 10 % 10), digitChar (dt.month % 10), '-',
    digitChar (dt.day / 10 % 10), digitChar (dt.day % 10)]⟩

/-- Whitespace as trimmed by Go `strings.TrimSpace` (restricted to the ASCII
whitespace characters; the claims never involve exotic Unicode spacing). -/
def isSpaceChar (c : Char) : Bool :=
  c = ' ' || c = '\t' || c = '\n' || c = '\r'

/-- Go `strings.TrimSpace`. -/
def trimString (s : String) : String :=
  ⟨((s.data.dropWhile isSpaceChar).reverse.dropWhile isSpaceChar).reverse⟩

/-- `parseBookingDateRange` (internal/models/booking.go): trim both inputs,
require both non-empty, parse both as ISO dates, require check-out strictly
after check-in.  Successful results are midnight-normalised dates
(`toLocalDate` is the identity in the embedding, since parsing a date-only
layout already yields midnight). -/
def parseBookingDateRange (checkInText checkOutText : String) :
    Except String (CivilDate × CivilDate) :=
  if trimString checkInText = "" ∨ trimString checkOutText = "" then
    .error "check-in and check-out are required"
  else
    match parseISODate (trimString checkInText) with
    | none => .error "invalid check-in date"
    | some checkIn =>
      match parseISODate (trimString checkOutText) with
      | none => .error "invalid check-out date"
      | some checkOut =>
        if checkIn.toDays < checkOut.toDays then .ok (checkIn, checkOut)
        else .error "check-out must be after check-in"

/-- The body of the `buildDateSlots` loop, structurally recursive on an
iteration bound so that it evaluates by kernel reduction.  One step tests
`day.Before(checkOut)` and advances with `day.AddDate(0, 0, 1)`. -/
def slotsFromAux : Nat → CivilDate → CivilDate → List String
  | 0, _, _ => []
  | fuel + 1, out, day =>
    if day.toDays < out.toDays then
      day.format :: slotsFromAux fuel out day.succ
    else []

/-- The loop of `buildDateSlots`: `for day := checkIn; day.Before(checkOut);
day = day.AddDate(0, 0, 1)` appending `day.Format("2006-01-02")`.  The Go
loop is unbounded; it runs exactly `checkOut.toDays - checkIn.toDays` times
(each step advances the day number by one, `CivilDate.toDays_succ`), which
is the bound supplied here.  `slotsFrom_eq_map_range` characterises the
result. -/
def slotsFrom (out : CivilDate) (day : CivilDate) : List String :=
  slotsFromAux (out.toDays - day.toDays) out day

/-- `buildDateSlots` (internal/models/booking.go). -/
def buildDateSlots (checkInText checkOutText : String) :
    Except String (List String) :=
  match parseBookingDateRange checkInText checkOutText with
  | .error e => .error e
  | .ok (checkIn, checkOut) => .ok (slotsFrom checkOut checkIn)

theorem slotsFromAux_eq (out : CivilDate) (fuel : Nat) :
    ∀ day : CivilDate, out.toDays - day.toDays ≤ fuel →
      slotsFromAux fuel out day =
        (List.range (out.toDays - day.toDays)).map
          (fun i => (succIters i day).format) := by
  induction fuel with
  | zero =>
    intro day h
    have h0 : out.toDays - day.toDays = 0 := by omega
    rw [h0]
    unfold slotsFromAux
    simp
  | succ k ih =>
    intro day h
    unfold slotsFromAux
    by_cases hlt : day.toDays < out.toDays
    · rw [if_pos hlt, ih day.succ (by rw [CivilDate.toDays_succ]; omega)]
      have hk : out.toDays - day.toDays = (out.toDays - day.succ.toDays) + 1 := by
        rw [CivilDate.toDays_succ]
        omega
      rw [hk]
      simp only [List.range_succ_eq_map, List.map_cons, List.map_map]
      rfl
    · rw [if_neg hlt]
      have h0 : out.toDays - day.toDays = 0 := by omega
      rw [h0]
      simp

theorem slotsFrom_eq_map_range (out day : CivilDate) :
    slotsFrom out day =
      (List.range (out.toDays - day.toDays)).map
        (fun i => (succIters i day).format) :=
  slotsFromAux_eq out _ day le_rfl

theorem format_parseISODate {s : String} {dt : CivilDate}
    (h : parseISODate s = some dt) : dt.format = s := by
  unfold parseISODate at h
  split at h
  case h_2 => exact absurd h (by simp)
  case h_1 y3 y2 y1 y0 s1 m1 m0 s2 d1 d0 heq =>
    split at h
    case isFalse => exact absurd h (by simp)
    case isTrue hdash =>
      split at h
      case h_2 => exact absurd h (by simp)
      case h_1 a b c e f g hh i ha hb hc he hf hg hhh hi =>
        unfold mkCivilDate? at h
        split at h
        case isFalse => exact absurd h (by simp)
        case isTrue hv =>
          have hdt : dt = ⟨1000 * a + 100 * b + 10 * c + e, 10 * f + g,
              10 * hh + i, hv.1, hv.2.1, hv.2.2.1, hv.2.2.2⟩ := by
            injection h with h2
            exact h2.symm
          subst hdt
          have la := charDigit_le_nine ha
          have lb := charDigit_le_nine hb
          have lc := charDigit_le_nine hc
          have le := charDigit_le_nine he
          have lf := charDigit_le_nine hf
          have lg := charDigit_le_nine hg
          have lh := charDigit_le_nine hhh
          have li := charDigit_le_nine hi
          unfold CivilDate.format
          have e1 : (1000 * a + 100 * b + 10 * c + e) / 1000 % 10 = a := by omega
          have e2 : (1000 * a + 100 * b + 10 * c + e) / 100 % 10 = b := by omega
          have e3 : (1000 * a + 100 * b + 10 * c + e) / 10 % 10 = c := by omega
          have e4 : (1000 * a + 100 * b + 10 * c + e) % 10 = e := by omega
          have e5 : (10 * f + g) / 10 % 10 = f := by omega
          have e6 : (10 * f + g) % 10 = g := by omega
          have e7 : (10 * hh + i) / 10 % 10 = hh := by omega
          have e8 : (10 * hh + i) % 10 = i := by omega
          show String.mk _ = s
          have hs : s.data = [y3, y2, y1, y0, s1, m1, m0, s2, d1, d0] := heq
          cases s with
          | mk cs =>
            simp only at hs
            subst hs
            simp only [e1, e2, e3, e4, e5, e6, e7, e8,
              digitChar_charDigit ha, digitChar_charDigit hb,
              digitChar_charDigit hc, digitChar_charDigit he,
              digitChar_charDigit hf, digitChar_charDigit hg,
              digitChar_charDigit hhh, digitChar_charDigit hi,
              hdash.1, hdash.2]

theorem parseISODate_ne_empty {s : String} {dt : CivilDate}
    (h : parseISODate s = some dt) : s ≠ "" := by
  intro he
  subst he
  simp [parseISODate] at h

/-- C6: for inputs `a`, `b` that parse as ISO `YYYY-MM-DD` dates with
`a < b`, `buildDateSlots` returns exactly the ordered list of day strings
`a, a+1, …, b-1`: the `i`-th element is the `i`-th calendar successor of
`a`, the first element is `a` itself, and the length is the number of days
from `a` up to but excluding `b`.  For `b ≤ a`, or for inputs that do not
parse, it returns an error and no list. -/
theorem claim_C6_buildDateSlots (a b : String) :
    (∀ A B, parseISODate (trimString a) = some A → parseISODate (trimString b) = some B →
      A.toDays < B.toDays →
      buildDateSlots a b =
        .ok ((List.range (B.toDays - A.toDays)).map
          (fun i => (succIters i A).format)) ∧
      ∀ l, buildDateSlots a b = .ok l →
        l.length = B.toDays - A.toDays ∧ l.head? = some (trimString a)) ∧
    (∀ A B, parseISODate (trimString a) = some A → parseISODate (trimString b) = some B →
      B.toDays ≤ A.toDays → ∃ e, buildDateSlots a b = .error e) ∧
    ((parseISODate (trimString a) = none ∨ parseISODate (trimString b) = none) →
      ∃ e, buildDateSlots a b = .error e) := by
  refine ⟨fun A B hA hB hlt => ?_, fun A B hA hB hge => ?_, fun hnp => ?_⟩
  · have hok : buildDateSlots a b = .ok (slotsFrom B A) := by
      unfold buildDateSlots parseBookingDateRange
      rw [if_neg (by
        simp [parseISODate_ne_empty hA, parseISODate_ne_empty hB])]
      simp only [hA, hB]
      rw [if_pos hlt]
    refine ⟨by rw [hok, slotsFrom_eq_map_range], fun l hl => ?_⟩
    rw [hok] at hl
    injection hl with hl
    subst hl
    rw [slotsFrom_eq_map_range]
    constructor
    · simp
    · obtain ⟨k, hk⟩ : ∃ k, B.toDays - A.toDays = k + 1 :=
        ⟨B.toDays - A.toDays - 1, by omega⟩
      rw [hk, List.range_succ_eq_map]
      simp [succIters, format_parseISODate hA]
  · refine ⟨"check-out must be after check-in", ?_⟩
    unfold buildDateSlots parseBookingDateRange
    rw [if_neg (by
      simp [parseISODate_ne_empty hA, parseISODate_ne_empty hB])]
    simp only [hA, hB]
    rw [if_neg (by omega)]
  · unfold buildDateSlots parseBookingDateRange
    by_cases hempty : trimString a = "" ∨ trimString b = ""
    · exact ⟨"check-in and check-out are required", by rw [if_pos hempty]⟩
    · rw [if_neg hempty]
      rcases hnp with hnp | hnp
      · exact ⟨"invalid check-in date", by simp only [hnp]⟩
      · rcases hpa : parseISODate (trimString a) with _ | A
        · exact ⟨"invalid check-in date", by simp only [hpa]⟩
        · exact ⟨"invalid check-out date", by simp only [hpa, hnp]⟩

/-- A concrete parsed date used by witnesses: 2030-06-10. -/
def witnessDate1 : CivilDate := ⟨2030, 6, 10, by decide, by decide, by decide, by decide⟩

/-- A concrete parsed date used by witnesses: 2030-06-12. -/
def witnessDate2 : CivilDate := ⟨2030, 6, 12, by decide, by decide, by decide, by decide⟩

/-- Witness for C6 at concrete inputs. -/
theorem claim_C6_buildDateSlots_witness :
    buildDateSlots "2030-06-10" "2030-06-12" = .ok ["2030-06-10", "2030-06-11"] ∧
    (∃ e, buildDateSlots "2030-06-12" "2030-06-10" = .error e) := by
  constructor
  · have h := (claim_C6_buildDateSlots "2030-06-10" "2030-06-12").1
      witnessDate1 witnessDate2 (by decide) (by decide) (by decide)
    rw [h.1]
    rfl
  · exact (claim_C6_buildDateSlots "2030-06-12" "2030-06-10").2.1
      witnessDate2 witnessDate1 (by decide) (by decide) (by decide)

theorem toDaysAux_mono_day (y m : Nat) {d1 d2 : Nat} (hd1 : 1 ≤ d1)
    (h : d1 ≤ d2) : toDaysAux y m d1 ≤ toDaysAux y m d2 := by
  unfold toDaysAux
  split_ifs <;> omega

theorem toDaysAux_strict_mono_day (y m : Nat) {d1 d2 : Nat} (hd1 : 1 ≤ d1)
    (h : d1 < d2) : toDaysAux y m d1 < toDaysAux y m d2 := by
  unfold toDaysAux
  split_ifs <;> omega

theorem toDaysAux_month_start_le (y : Nat) {m1 m2 : Nat} (hm1 : 1 ≤ m1)
    (hm2 : m2 ≤ 12) (h : m1 ≤ m2) :
    toDaysAux y m1 1 ≤ toDaysAux y m2 1 := by
  induction m2 with
  | zero => omega
  | succ k ih =>
    rcases Nat.lt_or_ge m1 (k + 1) with hlt | hge
    · have hk1 : 1 ≤ k := by omega
      calc toDaysAux y m1 1 ≤ toDaysAux y k 1 := ih (by omega) (by omega)
        _ ≤ toDaysAux y k (daysInMonth y k) :=
            toDaysAux_mono_day y k le_rfl (one_le_daysInMonth y k)
        _ ≤ toDaysAux y (k + 1) 1 := by
            rw [toDaysAux_next_month y k hk1 (by omega)]
            omega
    · have : m1 = k + 1 := by omega
      subst this
      exact le_rfl

theorem toDaysAux_strict_mono_month (y : Nat) {m1 m2 d1 d2 : Nat}
    (hm1 : 1 ≤ m1) (hm2 : m2 ≤ 12) (hd1 : 1 ≤ d1)
    (hdle : d1 ≤ daysInMonth y m1) (hd2 : 1 ≤ d2) (h : m1 < m2) :
    toDaysAux y m1 d1 < toDaysAux y m2 d2 := by
  calc toDaysAux y m1 d1 ≤ toDaysAux y m1 (daysInMonth y m1) :=
        toDaysAux_mono_day y m1 hd1 hdle
    _ < toDaysAux y (m1 + 1) 1 := by
        rw [toDaysAux_next_month y m1 hm1 (by omega)]
        omega
    _ ≤ toDaysAux y m2 1 := toDaysAux_month_start_le y (by omega) hm2 h
    _ ≤ toDaysAux y m2 d2 := toDaysAux_mono_day y m2 le_rfl hd2

theorem toDaysAux_le_year_end {y m d : Nat} (hm1 : 1 ≤ m) (hm2 : m ≤ 12)
    (hd1 : 1 ≤ d) (hdle : d ≤ daysInMonth y m) :
    toDaysAux y m d ≤ toDaysAux y 12 31 := by
  rcases Nat.lt_or_ge m 12 with hlt | hge
  · exact le_of_lt (toDaysAux_strict_mono_month y hm1 le_rfl hd1 hdle (by omega) hlt)
  · have hm : m = 12 := by omega
    subst hm
    have : daysInMonth y 12 = 31 := by norm_num [daysInMonth]
    exact toDaysAux_mono_day y 12 hd1 (by omega)

theorem toDaysAux_year_start_le {y m d : Nat} (hm1 : 1 ≤ m) (hd2 : 1 ≤ d) :
    toDaysAux y 1 1 ≤ toDaysAux y m d := by
  rcases Nat.lt_or_ge 1 m with hlt | hge
  · rcases Nat.lt_or_ge 12 m with hbig | hok
    · -- months beyond 12 cannot occur in a CivilDate; handled for totality
      unfold toDaysAux
      split_ifs <;> omega
    · exact le_of_lt (toDaysAux_strict_mono_month y le_rfl hok le_rfl
        (by norm_num [daysInMonth]) hd2 hlt)
  · have hm : m = 1 := by omega
    subst hm
    exact toDaysAux_mono_day y 1 le_rfl hd2

theorem toDaysAux_year_start_mono (y1 : Nat) :
    ∀ y2, y1 ≤ y2 → toDaysAux y1 1 1 ≤ toDaysAux y2 1 1 := by
  intro y2
  induction y2 with
  | zero => intro h; have : y1 = 0 := by omega
            subst this; exact le_rfl
  | succ k ih =>
    intro h
    rcases Nat.lt_or_ge y1 (k + 1) with hlt | hge
    · calc toDaysAux y1 1 1 ≤ toDaysAux k 1 1 := ih (by omega)
        _ ≤ toDaysAux k 12 31 := toDaysAux_year_start_le (by omega) (by omega)
        _ ≤ toDaysAux (k + 1) 1 1 := by rw [toDaysAux_next_year k]; omega
    · have : y1 = k + 1 := by omega
      subst this
      exact le_rfl

theorem toDaysAux_strict_mono_year {y1 y2 m1 m2 d1 d2 : Nat}
    (hm1a : 1 ≤ m1) (hm1b : m1 ≤ 12) (hd1a : 1 ≤ d1)
    (hd1b : d1 ≤ daysInMonth y1 m1) (hm2a : 1 ≤ m2) (hd2a : 1 ≤ d2)
    (h : y1 < y2) : toDaysAux y1 m1 d1 < toDaysAux y2 m2 d2 := by
  calc toDaysAux y1 m1 d1 ≤ toDaysAux y1 12 31 :=
        toDaysAux_le_year_end hm1a hm1b hd1a hd1b
    _ < toDaysAux (y1 + 1) 1 1 := by rw [toDaysAux_next_year y1]; omega
    _ ≤ toDaysAux y2 1 1 := toDaysAux_year_start_mono (y1 + 1) y2 (by omega)
    _ ≤ toDaysAux y2 m2 d2 := toDaysAux_year_start_le hm2a hd2a

/-- `toDays` is strictly monotone with respect to calendar (lexicographic)
order, hence the day number determines the date. -/
theorem CivilDate.toDays_strict_mono {a b : CivilDate}
    (h : a.year < b.year ∨ (a.year = b.year ∧ a.month < b.month) ∨
      (a.year = b.year ∧ a.month = b.month ∧ a.day < b.day)) :
    a.toDays < b.toDays := by
  obtain ⟨y1, m1, d1, hm1a, hm1b, hd1a, hd1b⟩ := a
  obtain ⟨y2, m2, d2, hm2a, hm2b, hd2a, hd2b⟩ := b
  show toDaysAux y1 m1 d1 < toDaysAux y2 m2 d2
  simp only at h
  rcases h with hy | ⟨hy, hm⟩ | ⟨hy, hm, hd⟩
  · exact toDaysAux_strict_mono_year hm1a hm1b hd1a hd1b hm2a hd2a hy
  · subst hy
    exact toDaysAux_strict_mono_month y1 hm1a hm2b hd1a hd1b hd2a hm
  · subst hy
    subst hm
    exact toDaysAux_strict_mono_day y1 m1 hd1a hd

theorem CivilDate.toDays_inj {a b : CivilDate} (h : a.toDays = b.toDays) :
    a = b := by
  by_contra hne
  have htri : a.year < b.year ∨ (a.year = b.year ∧ a.month < b.month) ∨
      (a.year = b.year ∧ a.month = b.month ∧ a.day < b.day) ∨
      b.year < a.year ∨ (b.year = a.year ∧ b.month < a.month) ∨
      (b.year = a.year ∧ b.month = a.month ∧ b.day < a.day) := by
    by_contra hno
    push_neg at hno
    apply hne
    ext <;> omega
  rcases htri with h1 | h1 | h1 | h1 | h1 | h1
  · exact absurd h (Nat.ne_of_lt (CivilDate.toDays_strict_mono (Or.inl h1)))
  · exact absurd h (Nat.ne_of_lt (CivilDate.toDays_strict_mono (Or.inr (Or.inl h1))))
  · exact absurd h (Nat.ne_of_lt (CivilDate.toDays_strict_mono (Or.inr (Or.inr h1))))
  · exact absurd h.symm (Nat.ne_of_lt (CivilDate.toDays_strict_mono (Or.inl h1)))
  · exact absurd h.symm (Nat.ne_of_lt (CivilDate.toDays_strict_mono (Or.inr (Or.inl h1))))
  · exact absurd h.symm (Nat.ne_of_lt (CivilDate.toDays_strict_mono (Or.inr (Or.inr h1))))

theorem dropWhile_rdropWhile {p : Char → Bool} :
    ∀ l : List Char, List.dropWhile p l = l →
      List.dropWhile p (List.rdropWhile p l) = List.rdropWhile p l := by
  intro l
  induction l using List.reverseRecOn with
  | nil => intro _; simp [List.rdropWhile_nil]
  | append_singleton t x ih =>
    intro hself
    rw [List.rdropWhile_concat]
    by_cases hx : p x
    · rw [if_pos hx]
      apply ih
      cases t with
      | nil => simp
      | cons a s =>
        have ha := (List.dropWhile_eq_self_iff).mp hself
        rw [List.dropWhile_eq_self_iff]
        intro hl
        exact ha (by simp)
    · rw [if_neg hx]
      exact hself

theorem trimString_data (s : String) :
    (trimString s).data =
      List.rdropWhile isSpaceChar (List.dropWhile isSpaceChar s.data) := rfl

theorem trimString_idem (s : String) :
    trimString (trimString s) = trimString s := by
  have hdata : (trimString (trimString s)).data = (trimString s).data := by
    rw [trimString_data, trimString_data s]
    rw [dropWhile_rdropWhile _ (List.dropWhile_idempotent _ _)]
    exact List.rdropWhile_idempotent _ _
  cases hs : trimString (trimString s)
  cases hs2 : trimString s
  rw [hs, hs2] at hdata
  simp only at hdata
  rw [hdata]

/-! ## Booking engine and room-calendar ledger (internal/models/booking.go)

Booking rows keep the fields the claims depend on.  `CreateBooking` and
`UpdateBookingByID` always store `roomId` and `hotelId` with the same value,
so a single `roomId` field represents both; payload fields that the engine
merely copies (guests, notes, …) are not represented.  ObjectIDs are
abstract `Nat`s. -/

/-- Lower-casing of ASCII letters, the effect of Go `strings.ToLower` on the
status strings under study. -/
def lowerChar (c : Char) : Char :=
  if 'A' ≤ c ∧ c ≤ 'Z' then Char.ofNat (c.toNat + 32) else c

/-- Go `isCancelledStatus` (internal/models/booking.go): lower-cased trimmed
status equal to "cancelled" or "canceled". -/
def isCancelledStatus (status : String) : Bool :=
  let st : String := ⟨(trimString status).data.map lowerChar⟩
  st = "cancelled" || st = "canceled"

/-- `parseBookingDateValue` restricted to string values in the date-only
layout.  Every booking row written by the embedded operations stores its
dates as validated `YYYY-MM-DD` strings, so the `time.Time`,
`primitive.DateTime` and RFC3339 branches of the Go function are never
exercised in the states under study and are not modelled. -/
def parseBookingDateValue (value : String) : Option CivilDate :=
  parseISODate (trimString value)

structure BookingRow where
  id : Nat
  roomId : Nat
  checkIn : String
  checkOut : String
  status : String
  deriving DecidableEq

structure SlotRow where
  roomId : Nat
  day : String
  bookingId : Nat
  deriving DecidableEq

/-- The persistent state of the booking engine: the `bookings` collection
and the `room_calendar` collection, as lists in insertion order. -/
structure BookingStore where
  bookings : List BookingRow
  calendar : List SlotRow
  deriving DecidableEq

/-- Go error kinds surfaced by the booking engine. -/
inductive BookingError where
  /-- `ErrInvalidBookingPayload`, wrapped with a message. -/
  | validation (msg : String)
  /-- `ErrBookingConflict`. -/
  | conflict
  /-- An unwrapped date-parse error propagated from `hasBookingConflict`. -/
  | dateParse (msg : String)
  /-- A duplicate-key error from the unique `(roomId, day)` calendar index. -/
  | duplicateKey
  deriving DecidableEq

/-- `hasBookingConflict` (internal/models/booking.go): parse the requested
range, query the calendar ledger for any reserved `(roomId, day)` among the
requested nights (excluding `excludeBookingId` when given), then fall back
to a bounded sweep (first 6000 rows for the room) over non-cancelled
bookings comparing parsed date ranges for overlap. -/
def hasBookingConflict (st : BookingStore) (roomId : Nat)
    (checkIn checkOut : String) (excludeBookingId : Option Nat) :
    Except String Bool :=
  match parseBookingDateRange checkIn checkOut with
  | .error e => .error e
  | .ok (newCheckInDate, newCheckOutDate) =>
    -- `buildDateSlots` on the same strings yields exactly these nights.
    let days := slotsFrom newCheckOutDate newCheckInDate
    let calendarHit :=
      !days.isEmpty &&
      st.calendar.any (fun slot =>
        slot.roomId == roomId && days.contains slot.day &&
        (match excludeBookingId with
         | none => true
         | some ex => !(slot.bookingId == ex)))
    if calendarHit then .ok true
    else
      let candidates := (st.bookings.filter (fun b => b.roomId == roomId)).take 6000
      .ok (candidates.any (fun b =>
        (match excludeBookingId with
         | none => true
         | some ex => !(b.id == ex)) &&
        !isCancelledStatus b.status &&
        (match parseBookingDateValue b.checkIn, parseBookingDateValue b.checkOut with
         | some existingIn, some existingOut =>
           existingIn.toDays < existingOut.toDays &&
           newCheckInDate.toDays < existingOut.toDays &&
           existingIn.toDays < newCheckOutDate.toDays
         | _, _ => false)))

/-- `reserveRoomCalendar`: build the nights, require at least one, insert
one `(roomId, day, bookingId)` row per night; a collision with an existing
row of the unique `(roomId, day)` index surfaces as a duplicate-key error
(the nights of one reservation are pairwise distinct, so the batch can only
collide with pre-existing rows). -/
def reserveRoomCalendar (st : BookingStore) (roomId bookingId : Nat)
    (checkIn checkOut : String) : Except BookingError BookingStore :=
  match buildDateSlots checkIn checkOut with
  | .error e => .error (.dateParse e)
  | .ok days =>
    if days.isEmpty then
      .error (.validation "booking period must be at least one night")
    else if days.any (fun day =>
        st.calendar.any (fun slot => slot.roomId == roomId && slot.day == day)) then
      .error .duplicateKey
    else
      .ok { st with calendar :=
        st.calendar ++ days.map (fun day => ⟨roomId, day, bookingId⟩) }

/-- `releaseRoomCalendar`: delete every calendar slot of a booking. -/
def releaseRoomCalendar (st : BookingStore) (bookingId : Nat) : BookingStore :=
  { st with calendar := st.calendar.filter (fun s => !(s.bookingId == bookingId)) }

/-- The payload of a create call, after the adapter validation: the parsed
room id, the raw date strings, and whatever `status` value the caller may
have smuggled into the body (Go copies all payload keys into the document
before overwriting the controlled ones). -/
structure BookingPayload where
  roomId : Nat
  checkIn : String
  checkOut : String
  status : Option String
  deriving DecidableEq

/-- `CreateBooking` (internal/models/booking.go).  `today` is the day number
of the server-local current date; `newId` is the freshly minted ObjectID.
The atomic unit either commits (returning the new state) or aborts with an
error, in which case the caller keeps the unchanged pre-state. -/
def CreateBooking (st : BookingStore) (today : Nat) (payload : BookingPayload)
    (newId : Nat) : Except BookingError (Nat × BookingStore) :=
  let checkIn := trimString payload.checkIn
  let checkOut := trimString payload.checkOut
  match parseBookingDateRange checkIn checkOut with
  | .error e => .error (.validation e)
  | .ok (checkInDate, _) =>
    if checkInDate.toDays < today then
      .error (.validation "check-in date must be today or later")
    else
      match hasBookingConflict st payload.roomId checkIn checkOut none with
      | .error e => .error (.dateParse e)
      | .ok true => .error .conflict
      | .ok false =>
        match reserveRoomCalendar st payload.roomId newId checkIn checkOut with
        | .error .duplicateKey => .error .conflict
        | .error e => .error e
        | .ok st2 =>
          .ok (newId, { st2 with bookings := st2.bookings ++
            [⟨newId, payload.roomId, checkIn, checkOut, "confirmed"⟩] })

/-- A booking-update patch: which of the controlled keys are present.  Any
caller-supplied `status` key is recorded to model Go deleting it from the
update before re-setting `status` to `"confirmed"`. -/
structure BookingPatch where
  roomId : Option Nat
  checkIn : Option String
  checkOut : Option String
  status : Option String
  deriving DecidableEq

/-- `UpdateBookingByID` (internal/models/booking.go).  Returns the matched
count; an absent id is a successful no-op with matched count 0. -/
def UpdateBookingByID (st : BookingStore) (today : Nat) (id : Nat)
    (patch : BookingPatch) : Except BookingError (Nat × BookingStore) :=
  match st.bookings.find? (fun b => b.id == id) with
  | none => .ok (0, st)
  | some existing =>
    let existingCheckIn := trimString existing.checkIn
    let existingCheckOut := trimString existing.checkOut
    match parseBookingDateRange existingCheckIn existingCheckOut with
    | .error e => .error (.validation e)
    | .ok _ =>
      let nextRoomId := patch.roomId.getD existing.roomId
      let nextCheckIn := match patch.checkIn with
        | some v => trimString v
        | none => existingCheckIn
      let nextCheckOut := match patch.checkOut with
        | some v => trimString v
        | none => existingCheckOut
      let enforceToday := patch.checkIn.isSome
      match parseBookingDateRange nextCheckIn nextCheckOut with
      | .error e => .error (.validation e)
      | .ok (checkInDate, _) =>
        if enforceToday && decide (checkInDate.toDays < today) then
          .error (.validation "check-in date must be today or later")
        else
          match hasBookingConflict st nextRoomId nextCheckIn nextCheckOut (some id) with
          | .error e => .error (.dateParse e)
          | .ok true => .error .conflict
          | .ok false =>
            let slotChanged :=
              !(existing.roomId == nextRoomId && existingCheckIn == nextCheckIn &&
                existingCheckOut == nextCheckOut)
            let reserved : Except BookingError BookingStore :=
              if slotChanged then
                reserveRoomCalendar (releaseRoomCalendar st id)
                  nextRoomId id nextCheckIn nextCheckOut
              else .ok st
            match reserved with
            | .error .duplicateKey => .error .conflict
            | .error e => .error e
            | .ok st2 =>
              .ok (1, { st2 with bookings := st2.bookings.map (fun b =>
                if b.id = id then
                  { b with
                    roomId := nextRoomId
                    checkIn := nextCheckIn
                    checkOut := nextCheckOut
                    status := "confirmed" }
                else b) })

/-- `DeleteBookingByID` (internal/models/booking.go): delete the booking row
(at most one: `_id` lookup), then every calendar slot owned by it. -/
def DeleteBookingByID (st : BookingStore) (id : Nat) : Nat × BookingStore :=
  match st.bookings.find? (fun b => b.id == id) with
  | none => (0, st)
  | some _ =>
    (1, { bookings := st.bookings.eraseP (fun b => b.id == id),
          calendar := st.calendar.filter (fun s => !(s.bookingId == id)) })

/-- States reachable from an empty store by the three mutation operations.
Each step may run at its own `today` (time advances between requests).  The
freshness hypothesis on `create` models `primitive.NewObjectID()` never
colliding with an existing row id. -/
inductive BookingReachable : BookingStore → Prop
  | init : BookingReachable ⟨[], []⟩
  | create {st st2 : BookingStore} {today : Nat} {payload : BookingPayload}
      {newId r : Nat}
      (hre : BookingReachable st)
      (hfresh : ∀ b ∈ st.bookings, b.id ≠ newId)
      (hstep : CreateBooking st today payload newId = .ok (r, st2)) :
      BookingReachable st2
  | update {st st2 : BookingStore} {today id : Nat} {patch : BookingPatch}
      {n : Nat}
      (hre : BookingReachable st)
      (hstep : UpdateBookingByID st today id patch = .ok (n, st2)) :
      BookingReachable st2
  | delete {st : BookingStore} {id : Nat}
      (hre : BookingReachable st) :
      BookingReachable (DeleteBookingByID st id).2

/-! ### Invariant machinery for the booking engine -/

/-- The parsed date range of a booking row, when its stored strings are
valid. -/
def rowRange (b : BookingRow) : Option (CivilDate × CivilDate) :=
  match parseBookingDateRange b.checkIn b.checkOut with
  | .ok x => some x
  | .error _ => none

theorem parseBookingDateRange_lt {ci co : String} {I O : CivilDate}
    (hp : parseBookingDateRange ci co = .ok (I, O)) : I.toDays < O.toDays := by
  unfold parseBookingDateRange at hp
  by_cases h0 : trimString ci = "" ∨ trimString co = ""
  · rw [if_pos h0] at hp
    exact Except.noConfusion hp
  · rw [if_neg h0] at hp
    rcases hA : parseISODate (trimString ci) with _ | A
    · simp only [hA] at hp
      exact Except.noConfusion hp
    · simp only [hA] at hp
      rcases hB : parseISODate (trimString co) with _ | B
      · simp only [hB] at hp
        exact Except.noConfusion hp
      · simp only [hB] at hp
        by_cases hlt : A.toDays < B.toDays
        · rw [if_pos hlt] at hp
          simp only [Except.ok.injEq, Prod.mk.injEq] at hp
          obtain ⟨h1, h2⟩ := hp
          subst h1
          subst h2
          exact hlt
        · rw [if_neg hlt] at hp
          exact Except.noConfusion hp

theorem parseBookingDateRange_iso {ci co : String} {I O : CivilDate}
    (hp : parseBookingDateRange ci co = .ok (I, O)) :
    parseISODate (trimString ci) = some I ∧
    parseISODate (trimString co) = some O := by
  unfold parseBookingDateRange at hp
  by_cases h0 : trimString ci = "" ∨ trimString co = ""
  · rw [if_pos h0] at hp
    exact Except.noConfusion hp
  · rw [if_neg h0] at hp
    rcases hA : parseISODate (trimString ci) with _ | A
    · simp only [hA] at hp
      exact Except.noConfusion hp
    · simp only [hA] at hp
      rcases hB : parseISODate (trimString co) with _ | B
      · simp only [hB] at hp
        exact Except.noConfusion hp
      · simp only [hB] at hp
        by_cases hlt : A.toDays < B.toDays
        · rw [if_pos hlt] at hp
          simp only [Except.ok.injEq, Prod.mk.injEq] at hp
          obtain ⟨h1, h2⟩ := hp
          subst h1
          subst h2
          exact ⟨rfl, rfl⟩
        · rw [if_neg hlt] at hp
          exact Except.noConfusion hp

theorem parseBookingDateRange_trim (ci co : String) :
    parseBookingDateRange (trimString ci) (trimString co) =
      parseBookingDateRange ci co := by
  unfold parseBookingDateRange
  rw [trimString_idem, trimString_idem]

theorem buildDateSlots_of_parse {ci co : String} {I O : CivilDate}
    (hp : parseBookingDateRange ci co = .ok (I, O)) :
    buildDateSlots ci co = .ok (slotsFrom O I) := by
  unfold buildDateSlots
  rw [hp]

theorem format_mem_slotsFrom {I O : CivilDate} {t : Nat}
    (h1 : I.toDays ≤ t) (h2 : t < O.toDays) :
    (succIters (t - I.toDays) I).format ∈ slotsFrom O I := by
  rw [slotsFrom_eq_map_range]
  exact List.mem_map.mpr ⟨t - I.toDays, List.mem_range.mpr (by omega), rfl⟩

theorem slotsFrom_ne_nil {I O : CivilDate} (h : I.toDays < O.toDays) :
    slotsFrom O I ≠ [] := by
  rw [slotsFrom_eq_map_range]
  intro hc
  have := congrArg List.length hc
  simp at this
  omega

/-- If the conflict check reports no conflict, then every calendar slot for
the requested room on one of the requested nights is owned by the excluded
booking. -/
theorem calendar_clean_of_conflict_false {st : BookingStore} {room : Nat}
    {ci co : String} {ex : Option Nat} {I O : CivilDate}
    (hp : parseBookingDateRange ci co = .ok (I, O))
    (hc : hasBookingConflict st room ci co ex = .ok false) :
    ∀ s ∈ st.calendar, s.roomId = room → s.day ∈ slotsFrom O I →
      ∃ e, ex = some e ∧ s.bookingId = e := by
  intro s hs hroom hday
  unfold hasBookingConflict at hc
  rw [hp] at hc
  simp only at hc
  split at hc
  · exact absurd hc (by simp)
  · rename_i hhit
    have hne : slotsFrom O I ≠ [] := by
      intro hnil
      rw [hnil] at hday
      exact absurd hday (by simp)
    have hnotempty : (slotsFrom O I).isEmpty = false := by
      rw [List.isEmpty_eq_false_iff_exists_mem]
      cases hsl : slotsFrom O I with
      | nil => exact absurd hsl hne
      | cons a t => exact ⟨a, by simp⟩
    rw [hnotempty] at hhit
    simp only [Bool.not_false, Bool.true_and, Bool.not_eq_true] at hhit
    have hfs := (List.any_eq_false.mp hhit) s hs
    have hroomb : (s.roomId == room) = true := by simp [hroom]
    have hcont : (slotsFrom O I).contains s.day = true := by
      rw [List.contains_iff_exists_mem_beq]
      exact ⟨s.day, hday, by simp⟩
    rw [hroomb, hcont] at hfs
    simp only [Bool.true_and] at hfs
    cases hex : ex with
    | none =>
      rw [hex] at hfs
      exact absurd hfs (by simp)
    | some e =>
      rw [hex] at hfs
      simp only at hfs
      cases hbe : (s.bookingId == e) with
      | false => exact absurd (by rw [hbe]; rfl) hfs
      | true => exact ⟨e, rfl, beq_iff_eq.mp hbe⟩

/-- Core admission argument: a no-conflict verdict on `(room, [I, O))`
rules out any calendar-covered, differently-owned booking of the same room
overlapping the requested range. -/
theorem no_overlap_of_conflict_false {st : BookingStore} {room : Nat}
    {ci co : String} {ex : Option Nat} {I O : CivilDate}
    (hp : parseBookingDateRange ci co = .ok (I, O))
    (hc : hasBookingConflict st room ci co ex = .ok false)
    {b : BookingRow} {I2 O2 : CivilDate}
    (hb2 : I2.toDays < O2.toDays)
    (hcov : ∀ day ∈ slotsFrom O2 I2,
      ∃ s ∈ st.calendar, s.roomId = b.roomId ∧ s.day = day ∧ s.bookingId = b.id)
    (hroom : b.roomId = room)
    (hexcl : ∀ e, ex = some e → b.id ≠ e) :
    ¬(I.toDays < O2.toDays ∧ I2.toDays < O.toDays) := by
  rintro ⟨h1, h2⟩
  have hio : I.toDays < O.toDays := parseBookingDateRange_lt hp
  have ht1 : I2.toDays ≤ max I.toDays I2.toDays := le_max_right _ _
  have ht2 : max I.toDays I2.toDays < O2.toDays := by omega
  obtain ⟨s, hsmem, hsroom, hsday, hsbid⟩ :=
    hcov _ (format_mem_slotsFrom ht1 ht2)
  have hdateeq : succIters (max I.toDays I2.toDays - I2.toDays) I2 =
      succIters (max I.toDays I2.toDays - I.toDays) I := by
    apply CivilDate.toDays_inj
    rw [toDays_succIters, toDays_succIters]
    omega
  have hreqmem : s.day ∈ slotsFrom O I := by
    rw [hsday, hdateeq]
    exact format_mem_slotsFrom (le_max_left _ _) (by omega)
  obtain ⟨e, hex, hbe⟩ :=
    calendar_clean_of_conflict_false hp hc s hsmem (hsroom.trans hroom) hreqmem
  exact hexcl e hex (by rw [← hsbid, hbe])

theorem eraseP_id_ne {id : Nat} :
    ∀ {l : List BookingRow}, l.Pairwise (fun a b => a.id ≠ b.id) →
      ∀ x ∈ l.eraseP (fun b => b.id == id), x.id ≠ id := by
  intro l
  induction l with
  | nil => intro _ x hx; exact absurd hx (by simp)
  | cons a t ih =>
    intro hpw x hx
    rcases List.pairwise_cons.mp hpw with ⟨ha, ht⟩
    by_cases hmatch : a.id = id
    · rw [List.eraseP_cons_of_pos (by simp [hmatch])] at hx
      intro hxid
      exact ha x hx (by rw [hxid, hmatch])
    · rw [List.eraseP_cons_of_neg (by simp [hmatch])] at hx
      rcases List.mem_cons.mp hx with rfl | hx
      · exact hmatch
      · exact ih ht x hx

theorem reserveRoomCalendar_ok {st : BookingStore} {room bid : Nat}
    {ci co : String} {st2 : BookingStore}
    (h : reserveRoomCalendar st room bid ci co = .ok st2) :
    ∃ days, buildDateSlots ci co = .ok days ∧
      st2.bookings = st.bookings ∧
      st2.calendar = st.calendar ++ days.map (fun day => ⟨room, day, bid⟩) := by
  unfold reserveRoomCalendar at h
  rcases hb : buildDateSlots ci co with e | days
  · simp only [hb] at h
    exact Except.noConfusion h
  · simp only [hb] at h
    split at h
    · exact Except.noConfusion h
    · split at h
      · exact Except.noConfusion h
      · injection h with h
        exact ⟨days, rfl, by rw [← h], by rw [← h]⟩

theorem CreateBooking_ok {st : BookingStore} {today : Nat}
    {payload : BookingPayload} {newId r : Nat} {st2 : BookingStore}
    (h : CreateBooking st today payload newId = .ok (r, st2)) :
    ∃ I O st3,
      parseBookingDateRange (trimString payload.checkIn)
        (trimString payload.checkOut) = .ok (I, O) ∧
      ¬(I.toDays < today) ∧
      hasBookingConflict st payload.roomId (trimString payload.checkIn)
        (trimString payload.checkOut) none = .ok false ∧
      reserveRoomCalendar st payload.roomId newId (trimString payload.checkIn)
        (trimString payload.checkOut) = .ok st3 ∧
      r = newId ∧
      st2 = { st3 with bookings := st3.bookings ++
        [⟨newId, payload.roomId, trimString payload.checkIn,
          trimString payload.checkOut, "confirmed"⟩] } := by
  unfold CreateBooking at h
  simp only at h
  rcases hp : parseBookingDateRange (trimString payload.checkIn)
      (trimString payload.checkOut) with e | po
  · simp only [hp] at h
    exact Except.noConfusion h
  · obtain ⟨I, O⟩ := po
    simp only [hp] at h
    split at h
    · exact Except.noConfusion h
    · rename_i htoday
      rcases hc : hasBookingConflict st payload.roomId (trimString payload.checkIn)
          (trimString payload.checkOut) none with e | cf
      · simp only [hc] at h
        exact Except.noConfusion h
      · simp only [hc] at h
        cases cf
        · rcases hr : reserveRoomCalendar st payload.roomId newId
              (trimString payload.checkIn) (trimString payload.checkOut) with e | st3
          · simp only [hr] at h
            cases e <;> exact Except.noConfusion h
          · simp only [hr] at h
            simp only [Except.ok.injEq, Prod.mk.injEq] at h
            obtain ⟨h1, h2⟩ := h
            exact ⟨I, O, st3, rfl, htoday, rfl, rfl, h1.symm, h2.symm⟩
        · exact Except.noConfusion h

/-- The new room id after overlaying a patch. -/
def nextRoomOf (existing : BookingRow) (patch : BookingPatch) : Nat :=
  patch.roomId.getD existing.roomId

/-- The new check-in string after overlaying a patch. -/
def nextCheckInOf (existing : BookingRow) (patch : BookingPatch) : String :=
  match patch.checkIn with
  | some v => trimString v
  | none => trimString existing.checkIn

/-- The new check-out string after overlaying a patch. -/
def nextCheckOutOf (existing : BookingRow) (patch : BookingPatch) : String :=
  match patch.checkOut with
  | some v => trimString v
  | none => trimString existing.checkOut

theorem UpdateBookingByID_ok {st : BookingStore} {today id : Nat}
    {patch : BookingPatch} {n : Nat} {st2 : BookingStore}
    (h : UpdateBookingByID st today id patch = .ok (n, st2)) :
    (st.bookings.find? (fun b => b.id == id) = none ∧ st2 = st) ∨
    ∃ existing, st.bookings.find? (fun b => b.id == id) = some existing ∧
    ∃ I O, parseBookingDateRange (nextCheckInOf existing patch)
        (nextCheckOutOf existing patch) = .ok (I, O) ∧
      hasBookingConflict st (nextRoomOf existing patch)
        (nextCheckInOf existing patch) (nextCheckOutOf existing patch)
        (some id) = .ok false ∧
      ∃ st3,
        ((¬(existing.roomId = nextRoomOf existing patch ∧
            trimString existing.checkIn = nextCheckInOf existing patch ∧
            trimString existing.checkOut = nextCheckOutOf existing patch) ∧
          reserveRoomCalendar (releaseRoomCalendar st id)
            (nextRoomOf existing patch) id (nextCheckInOf existing patch)
            (nextCheckOutOf existing patch) = .ok st3) ∨
         ((existing.roomId = nextRoomOf existing patch ∧
            trimString existing.checkIn = nextCheckInOf existing patch ∧
            trimString existing.checkOut = nextCheckOutOf existing patch) ∧
          st3 = st)) ∧
        st2 = { st3 with bookings := st3.bookings.map (fun b =>
          if b.id = id then
            { b with
              roomId := nextRoomOf existing patch
              checkIn := nextCheckInOf existing patch
              checkOut := nextCheckOutOf existing patch
              status := "confirmed" }
          else b) } := by
  unfold UpdateBookingByID at h
  rcases hfind : st.bookings.find? (fun b => b.id == id) with _ | existing
  · simp only [hfind] at h
    simp only [Except.ok.injEq, Prod.mk.injEq] at h
    exact Or.inl ⟨hfind, h.2.symm⟩
  · simp only [hfind] at h
    refine Or.inr ⟨existing, hfind, ?_⟩
    rcases hp0 : parseBookingDateRange (trimString existing.checkIn)
        (trimString existing.checkOut) with e | po0
    · simp only [hp0] at h
      exact Except.noConfusion h
    · simp only [hp0] at h
      rcases hp : parseBookingDateRange (nextCheckInOf existing patch)
          (nextCheckOutOf existing patch) with e | po
      · simp only [nextCheckInOf, nextCheckOutOf] at hp
        simp only [hp] at h
        exact Except.noConfusion h
      · obtain ⟨I, O⟩ := po
        have hp2 := hp
        simp only [nextCheckInOf, nextCheckOutOf] at hp2
        simp only [hp2] at h
        refine ⟨I, O, rfl, ?_⟩
        split at h
        · exact Except.noConfusion h
        · rcases hc : hasBookingConflict st (nextRoomOf existing patch)
              (nextCheckInOf existing patch) (nextCheckOutOf existing patch)
              (some id) with e | cf
          · have hc2 := hc
            simp only [nextRoomOf, nextCheckInOf, nextCheckOutOf] at hc2
            simp only [hc2] at h
            exact Except.noConfusion h
          · have hc2 := hc
            simp only [nextRoomOf, nextCheckInOf, nextCheckOutOf] at hc2
            simp only [hc2] at h
            cases cf
            · refine ⟨rfl, ?_⟩
              by_cases hch : existing.roomId = nextRoomOf existing patch ∧
                  trimString existing.checkIn = nextCheckInOf existing patch ∧
                  trimString existing.checkOut = nextCheckOutOf existing patch
              · -- slot tuple unchanged: no release/reserve
                have hsl : (!(existing.roomId == patch.roomId.getD existing.roomId &&
                    (trimString existing.checkIn ==
                      match patch.checkIn with
                      | some v => trimString v
                      | none => trimString existing.checkIn) &&
                    (trimString existing.checkOut ==
                      match patch.checkOut with
                      | some v => trimString v
                      | none => trimString existing.checkOut))) = false := by
                  obtain ⟨h1, h2, h3⟩ := hch
                  simp only [nextRoomOf] at h1
                  simp only [nextCheckInOf] at h2
                  simp only [nextCheckOutOf] at h3
                  rw [← h1, ← h2, ← h3]
                  simp
                rw [hsl] at h
                rw [if_neg (by simp)] at h
                simp only [Except.ok.injEq, Prod.mk.injEq] at h
                refine ⟨st, Or.inr ⟨hch, rfl⟩, ?_⟩
                simp only [nextRoomOf, nextCheckInOf, nextCheckOutOf]
                exact h.2.symm
              · -- slot tuple changed: release then reserve
                have hsl : (!(existing.roomId == patch.roomId.getD existing.roomId &&
                    (trimString existing.checkIn ==
                      match patch.checkIn with
                      | some v => trimString v
                      | none => trimString existing.checkIn) &&
                    (trimString existing.checkOut ==
                      match patch.checkOut with
                      | some v => trimString v
                      | none => trimString existing.checkOut))) = true := by
                  simp only [nextRoomOf, nextCheckInOf, nextCheckOutOf] at hch
                  rcases Decidable.not_and_iff_or_not.mp hch with h1 | h23
                  · simp only [Bool.not_eq_true']
                    rw [Bool.and_eq_false_iff, Bool.and_eq_false_iff]
                    exact Or.inl (Or.inl (by rw [beq_eq_false_iff_ne]; exact h1))
                  · rcases Decidable.not_and_iff_or_not.mp h23 with h2 | h3
                    · simp only [Bool.not_eq_true']
                      rw [Bool.and_eq_false_iff, Bool.and_eq_false_iff]
                      exact Or.inl (Or.inr (by rw [beq_eq_false_iff_ne]; exact h2))
                    · simp only [Bool.not_eq_true']
                      rw [Bool.and_eq_false_iff]
                      exact Or.inr (by rw [beq_eq_false_iff_ne]; exact h3)
                rw [hsl] at h
                rw [if_pos rfl] at h
                rcases hr : reserveRoomCalendar (releaseRoomCalendar st id)
                    (nextRoomOf existing patch) id (nextCheckInOf existing patch)
                    (nextCheckOutOf existing patch) with e | st3
                · have hr2 := hr
                  simp only [nextRoomOf, nextCheckInOf, nextCheckOutOf] at hr2
                  simp only [hr2] at h
                  cases e <;> exact Except.noConfusion h
                · have hr2 := hr
                  simp only [nextRoomOf, nextCheckInOf, nextCheckOutOf] at hr2
                  simp only [hr2] at h
                  simp only [Except.ok.injEq, Prod.mk.injEq] at h
                  refine ⟨st3, Or.inl ⟨hch, rfl⟩, ?_⟩
                  simp only [nextRoomOf, nextCheckInOf, nextCheckOutOf]
                  exact h.2.symm
            · exact Except.noConfusion h

theorem rowRange_of_parse {b : BookingRow} {I O : CivilDate}
    (h : parseBookingDateRange b.checkIn b.checkOut = .ok (I, O)) :
    rowRange b = some (I, O) := by
  unfold rowRange
  rw [h]

theorem parse_of_rowRange {b : BookingRow} {I O : CivilDate}
    (h : rowRange b = some (I, O)) :
    parseBookingDateRange b.checkIn b.checkOut = .ok (I, O) := by
  unfold rowRange at h
  rcases hp : parseBookingDateRange b.checkIn b.checkOut with e | x
  · simp only [hp] at h
    exact Option.noConfusion h
  · simp only [hp] at h
    injection h with h
    rw [h]

/-- Two booking rows of the same room have disjoint `[checkIn, checkOut)`
night ranges. -/
def RowsNoOverlap (b1 b2 : BookingRow) : Prop :=
  b1.roomId = b2.roomId →
  ∀ I1 O1 I2 O2, rowRange b1 = some (I1, O1) → rowRange b2 = some (I2, O2) →
    ¬(I1.toDays < O2.toDays ∧ I2.toDays < O1.toDays)

/-- The inductive invariant of the booking store: every row is confirmed
with a valid date range, ids are unique, the calendar covers every night of
every row, and rows of the same room never overlap. -/
structure BookingInv (st : BookingStore) : Prop where
  valid : ∀ b ∈ st.bookings, ∃ I O, rowRange b = some (I, O)
  confirmed : ∀ b ∈ st.bookings, b.status = "confirmed"
  uniqueIds : st.bookings.Pairwise (fun a b => a.id ≠ b.id)
  covered : ∀ b ∈ st.bookings, ∀ I O, rowRange b = some (I, O) →
    ∀ day ∈ slotsFrom O I,
      ∃ s ∈ st.calendar, s.roomId = b.roomId ∧ s.day = day ∧ s.bookingId = b.id
  noOverlap : st.bookings.Pairwise RowsNoOverlap

theorem BookingInv_init : BookingInv ⟨[], []⟩ := by
  constructor <;> simp [List.Pairwise.nil]

theorem BookingInv_create {st st2 : BookingStore} {today : Nat}
    {payload : BookingPayload} {newId r : Nat}
    (inv : BookingInv st)
    (hfresh : ∀ b ∈ st.bookings, b.id ≠ newId)
    (hstep : CreateBooking st today payload newId = .ok (r, st2)) :
    BookingInv st2 := by
  obtain ⟨I, O, st3, hp, _, hconf, hres, _, hst2⟩ := CreateBooking_ok hstep
  obtain ⟨days, hdays, hb3, hc3⟩ := reserveRoomCalendar_ok hres
  have hdays2 : days = slotsFrom O I := by
    rw [buildDateSlots_of_parse hp] at hdays
    injection hdays with h
    exact h.symm
  subst hdays2
  subst hst2
  have hrowp : parseBookingDateRange
      (trimString payload.checkIn) (trimString payload.checkOut) = .ok (I, O) := hp
  constructor
  · intro b hb
    rw [hb3] at hb
    rcases List.mem_append.mp hb with hb | hb
    · exact inv.valid b hb
    · have hbrow : b = ⟨newId, payload.roomId, trimString payload.checkIn,
          trimString payload.checkOut, "confirmed"⟩ := by simpa using hb
      subst hbrow
      exact ⟨I, O, rowRange_of_parse hrowp⟩
  · intro b hb
    rw [hb3] at hb
    rcases List.mem_append.mp hb with hb | hb
    · exact inv.confirmed b hb
    · have hbrow : b = ⟨newId, payload.roomId, trimString payload.checkIn,
          trimString payload.checkOut, "confirmed"⟩ := by simpa using hb
      subst hbrow
      rfl
  · rw [hb3]
    rw [List.pairwise_append]
    exact ⟨inv.uniqueIds, List.pairwise_singleton _ _,
      fun a ha b hb => by
        have hbrow : b = ⟨newId, payload.roomId, trimString payload.checkIn,
            trimString payload.checkOut, "confirmed"⟩ := by simpa using hb
        subst hbrow
        exact hfresh a ha⟩
  · intro b hb I2 O2 hbr day hday
    rw [hb3] at hb
    rcases List.mem_append.mp hb with hb | hb
    · obtain ⟨s, hs, h1, h2, h3⟩ := inv.covered b hb I2 O2 hbr day hday
      exact ⟨s, by rw [hc3]; exact List.mem_append_left _ hs, h1, h2, h3⟩
    · have hbrow : b = ⟨newId, payload.roomId, trimString payload.checkIn,
          trimString payload.checkOut, "confirmed"⟩ := by simpa using hb
      subst hbrow
      have : rowRange (⟨newId, payload.roomId, trimString payload.checkIn,
          trimString payload.checkOut, "confirmed"⟩ : BookingRow) = some (I, O) :=
        rowRange_of_parse hrowp
      rw [this] at hbr
      injection hbr with hbr
      injection hbr with hb1 hb2
      subst hb1
      subst hb2
      refine ⟨⟨payload.roomId, day, newId⟩, ?_, rfl, rfl, rfl⟩
      rw [hc3]
      exact List.mem_append_right _ (List.mem_map.mpr ⟨day, hday, rfl⟩)
  · rw [hb3]
    rw [List.pairwise_append]
    refine ⟨inv.noOverlap, List.pairwise_singleton _ _, ?_⟩
    intro a ha b hb
    have hbrow : b = ⟨newId, payload.roomId, trimString payload.checkIn,
        trimString payload.checkOut, "confirmed"⟩ := by simpa using hb
    subst hbrow
    intro hroom I1 O1 I2 O2 har hbr
    have : rowRange (⟨newId, payload.roomId, trimString payload.checkIn,
        trimString payload.checkOut, "confirmed"⟩ : BookingRow) = some (I, O) :=
      rowRange_of_parse hrowp
    rw [this] at hbr
    injection hbr with hbr
    injection hbr with hb1 hb2
    subst hb1
    subst hb2
    rintro ⟨hov1, hov2⟩
    have hb2lt : I1.toDays < O1.toDays :=
      parseBookingDateRange_lt (parse_of_rowRange har)
    refine no_overlap_of_conflict_false hp hconf hb2lt
      (inv.covered a ha I1 O1 har) (by simpa using hroom)
      (fun e he => Option.noConfusion he) ⟨hov2, hov1⟩

theorem mem_id_eq_of_pairwise {l : List BookingRow}
    (hpw : l.Pairwise (fun a b => a.id ≠ b.id))
    {b c : BookingRow} (hb : b ∈ l) (hc : c ∈ l) (h : b.id = c.id) : b = c := by
  by_contra hne
  exact List.Pairwise.forall (fun x y hxy => hxy.symm) hpw hb hc hne h

theorem BookingInv_update {st st2 : BookingStore} {today id : Nat}
    {patch : BookingPatch} {n : Nat}
    (inv : BookingInv st)
    (hstep : UpdateBookingByID st today id patch = .ok (n, st2)) :
    BookingInv st2 := by
  rcases UpdateBookingByID_ok hstep with ⟨_, hst⟩ |
    ⟨existing, hfind, I, O, hp, hconf, st3, hres, hst2⟩
  · rw [hst]
    exact inv
  · subst hst2
    have hexmem : existing ∈ st.bookings := List.mem_of_find?_eq_some hfind
    have hexid : existing.id = id := by
      have := List.find?_some hfind
      simpa using this
    have hio : I.toDays < O.toDays := parseBookingDateRange_lt hp
    have hb3 : st3.bookings = st.bookings := by
      rcases hres with ⟨_, hr⟩ | ⟨_, rfl⟩
      · exact (reserveRoomCalendar_ok hr).choose_spec.2.1
      · rfl
    have hcal : (st3.calendar = st.calendar ∧
          (existing.roomId = nextRoomOf existing patch ∧
           trimString existing.checkIn = nextCheckInOf existing patch ∧
           trimString existing.checkOut = nextCheckOutOf existing patch)) ∨
        st3.calendar = st.calendar.filter (fun s => !(s.bookingId == id)) ++
          (slotsFrom O I).map
            (fun day => ⟨nextRoomOf existing patch, day, id⟩) := by
      rcases hres with ⟨_, hr⟩ | ⟨hch, rfl⟩
      · obtain ⟨days, hdays, _, hcc⟩ := reserveRoomCalendar_ok hr
        have hdays2 : days = slotsFrom O I := by
          rw [buildDateSlots_of_parse hp] at hdays
          injection hdays with h
          exact h.symm
        subst hdays2
        exact Or.inr hcc
      · exact Or.inl ⟨rfl, hch⟩
    -- the range of the updated row, and of `existing` in the unchanged case
    have hrowupd : ∀ b : BookingRow, b.id = id →
        rowRange { b with
          roomId := nextRoomOf existing patch
          checkIn := nextCheckInOf existing patch
          checkOut := nextCheckOutOf existing patch
          status := "confirmed" } = some (I, O) := by
      intro b _
      exact rowRange_of_parse hp
    have hexrange : (existing.roomId = nextRoomOf existing patch ∧
        trimString existing.checkIn = nextCheckInOf existing patch ∧
        trimString existing.checkOut = nextCheckOutOf existing patch) →
        rowRange existing = some (I, O) := by
      rintro ⟨_, h2, h3⟩
      apply rowRange_of_parse
      rw [← parseBookingDateRange_trim existing.checkIn existing.checkOut]
      rw [h2, h3]
      exact hp
    -- no-overlap of the new range against any other row, from the conflict check
    have hnool : ∀ b ∈ st.bookings, b.id ≠ id →
        b.roomId = nextRoomOf existing patch →
        ∀ I1 O1, rowRange b = some (I1, O1) →
          ¬(I.toDays < O1.toDays ∧ I1.toDays < O.toDays) := by
      intro b hb hbid hroom I1 O1 hbr
      exact no_overlap_of_conflict_false hp hconf
        (parseBookingDateRange_lt (parse_of_rowRange hbr))
        (inv.covered b hb I1 O1 hbr) hroom
        (fun e he => by injection he with he; rw [← he]; exact hbid)
    constructor
    · intro b2 hb2
      rw [hb3] at hb2
      obtain ⟨b, hb, hfb⟩ := List.mem_map.mp hb2
      by_cases hbid : b.id = id
      · rw [if_pos hbid] at hfb
        exact ⟨I, O, by rw [← hfb]; exact hrowupd b hbid⟩
      · rw [if_neg hbid] at hfb
        rw [← hfb]
        exact inv.valid b hb
    · intro b2 hb2
      rw [hb3] at hb2
      obtain ⟨b, hb, hfb⟩ := List.mem_map.mp hb2
      by_cases hbid : b.id = id
      · rw [if_pos hbid] at hfb
        rw [← hfb]
      · rw [if_neg hbid] at hfb
        rw [← hfb]
        exact inv.confirmed b hb
    · rw [hb3]
      rw [List.pairwise_map]
      apply inv.uniqueIds.imp_of_mem
      intro a b _ _ hab
      by_cases ha : a.id = id
      · by_cases hbq : b.id = id
        · exact absurd (ha.trans hbq.symm) hab
        · rw [if_pos ha, if_neg hbq]
          exact hab
      · by_cases hbq : b.id = id
        · rw [if_neg ha, if_pos hbq]
          exact hab
        · rw [if_neg ha, if_neg hbq]
          exact hab
    · intro b2 hb2 I2 O2 hbr2 day hday
      rw [hb3] at hb2
      obtain ⟨b, hb, hfb⟩ := List.mem_map.mp hb2
      by_cases hbid : b.id = id
      · -- the updated row: covered by the new slots, or unchanged by the old
        rw [if_pos hbid] at hfb
        have hr2 : rowRange b2 = some (I, O) := by rw [← hfb]; exact hrowupd b hbid
        rw [hr2] at hbr2
        injection hbr2 with hbr2
        injection hbr2 with he1 he2
        subst he1
        subst he2
        rcases hcal with ⟨hceq, hch⟩ | hcnew
        · -- unchanged: `b = existing` and the old slots still stand
          have hbex : b = existing :=
            mem_id_eq_of_pairwise inv.uniqueIds hb hexmem (by rw [hbid, hexid])
          subst hbex
          obtain ⟨s, hs, h1, h2, h3⟩ :=
            inv.covered b hb I O (hexrange hch) day hday
          refine ⟨s, by rw [hceq]; exact hs, ?_, h2, ?_⟩
          · rw [← hfb]
            simpa [← hch.1] using h1
          · rw [← hfb]
            simpa using h3
        · refine ⟨⟨nextRoomOf existing patch, day, id⟩, ?_, ?_, rfl, ?_⟩
          · rw [hcnew]
            exact List.mem_append_right _ (List.mem_map.mpr ⟨day, hday, rfl⟩)
          · rw [← hfb]
          · rw [← hfb]
            simpa using hbid.symm
      · rw [if_neg hbid] at hfb
        subst hfb
        obtain ⟨s, hs, h1, h2, h3⟩ := inv.covered b hb I2 O2 hbr2 day hday
        refine ⟨s, ?_, h1, h2, h3⟩
        rcases hcal with ⟨hceq, _⟩ | hcnew
        · rw [hceq]
          exact hs
        · rw [hcnew]
          refine List.mem_append_left _ (List.mem_filter.mpr ⟨hs, ?_⟩)
          simp [h3, hbid]
    · rw [hb3]
      rw [List.pairwise_map]
      apply (inv.uniqueIds.and inv.noOverlap).imp_of_mem
      rintro a b ha hb ⟨hids, hold⟩
      by_cases haid : a.id = id <;> by_cases hbid : b.id = id
      · exact absurd (haid.trans hbid.symm) hids
      · -- `a` is the updated row
        rw [if_pos haid, if_neg hbid]
        intro hroom I1 O1 I2 O2 h1 h2
        rw [hrowupd a haid] at h1
        injection h1 with h1
        injection h1 with e1 e2
        subst e1
        subst e2
        exact hnool b hb hbid hroom.symm I2 O2 h2
      · -- `b` is the updated row
        rw [if_neg haid, if_pos hbid]
        intro hroom I1 O1 I2 O2 h1 h2
        rw [hrowupd b hbid] at h2
        injection h2 with h2
        injection h2 with e1 e2
        subst e1
        subst e2
        exact fun hand => hnool a ha haid hroom I1 O1 h1 ⟨hand.2, hand.1⟩
      · rw [if_neg haid, if_neg hbid]
        exact hold

theorem BookingInv_delete {st : BookingStore} (id : Nat)
    (inv : BookingInv st) : BookingInv (DeleteBookingByID st id).2 := by
  unfold DeleteBookingByID
  rcases hfind : st.bookings.find? (fun b => b.id == id) with _ | existing
  · rw [hfind]
    simpa using inv
  · rw [hfind]
    simp only
    constructor
    · intro b hb
      exact inv.valid b (List.Sublist.mem hb (List.eraseP_sublist _))
    · intro b hb
      exact inv.confirmed b (List.Sublist.mem hb (List.eraseP_sublist _))
    · exact List.Pairwise.sublist (List.eraseP_sublist _) inv.uniqueIds
    · intro b hb I2 O2 hbr day hday
      have hbmem : b ∈ st.bookings := List.Sublist.mem hb (List.eraseP_sublist _)
      have hbid : b.id ≠ id := eraseP_id_ne inv.uniqueIds b hb
      obtain ⟨s, hs, h1, h2, h3⟩ := inv.covered b hbmem I2 O2 hbr day hday
      refine ⟨s, List.mem_filter.mpr ⟨hs, by simp [h3, hbid]⟩, h1, h2, h3⟩
    · exact List.Pairwise.sublist (List.eraseP_sublist _) inv.noOverlap

theorem BookingInv_reachable {st : BookingStore}
    (h : BookingReachable st) : BookingInv st := by
  induction h with
  | init => exact BookingInv_init
  | create hre hfresh hstep ih => exact BookingInv_create ih hfresh hstep
  | update hre hstep ih => exact BookingInv_update ih hstep
  | delete hre ih => exact BookingInv_delete _ ih

/-- Whether a confirmed-booking row's `[checkIn, checkOut)` range contains
day number `t`. -/
def rowContainsDay (b : BookingRow) (t : Nat) : Bool :=
  match rowRange b with
  | some (I, O) => decide (I.toDays ≤ t) && decide (t < O.toDays)
  | none => false

theorem rowContainsDay_true {b : BookingRow} {t : Nat}
    (h : rowContainsDay b t = true) :
    ∃ I O, rowRange b = some (I, O) ∧ I.toDays ≤ t ∧ t < O.toDays := by
  unfold rowContainsDay at h
  rcases hr : rowRange b with _ | ⟨I, O⟩
  · simp only [hr] at h
    exact Bool.noConfusion h
  · simp only [hr] at h
    rw [Bool.and_eq_true, decide_eq_true_eq, decide_eq_true_eq] at h
    exact ⟨I, O, rfl, h.1, h.2⟩

/-- C1: in every store state reachable from the empty store by any sequence
of `CreateBooking`, `UpdateBookingByID` and `DeleteBookingByID` operations,
for every `(room, day)` pair at most one booking row has
`status = "confirmed"` and a `[checkIn, checkOut)` range containing the
day. -/
theorem claim_C1_no_double_booking {st : BookingStore}
    (hre : BookingReachable st) (room t : Nat) :
    (st.bookings.filter (fun b =>
      b.status == "confirmed" && b.roomId == room && rowContainsDay b t)).length ≤ 1 := by
  have inv := BookingInv_reachable hre
  have hpw := (inv.uniqueIds.and inv.noOverlap).filter
    (fun b => b.status == "confirmed" && b.roomId == room && rowContainsDay b t)
  cases hl : st.bookings.filter (fun b =>
      b.status == "confirmed" && b.roomId == room && rowContainsDay b t) with
  | nil => simp
  | cons x t2 =>
    cases t2 with
    | nil => simp
    | cons y t3 =>
      exfalso
      rw [hl] at hpw
      rcases List.pairwise_cons.mp hpw with ⟨hx, _⟩
      obtain ⟨hneid, hnool⟩ := hx y (by simp)
      have hxmem : x ∈ st.bookings.filter (fun b =>
          b.status == "confirmed" && b.roomId == room && rowContainsDay b t) := by
        rw [hl]; simp
      have hymem : y ∈ st.bookings.filter (fun b =>
          b.status == "confirmed" && b.roomId == room && rowContainsDay b t) := by
        rw [hl]; simp
      have hxp := (List.mem_filter.mp hxmem).2
      have hyp := (List.mem_filter.mp hymem).2
      rw [Bool.and_eq_true, Bool.and_eq_true] at hxp hyp
      obtain ⟨⟨_, hxroom⟩, hxday⟩ := hxp
      obtain ⟨⟨_, hyroom⟩, hyday⟩ := hyp
      obtain ⟨I1, O1, hr1, ht1a, ht1b⟩ := rowContainsDay_true hxday
      obtain ⟨I2, O2, hr2, ht2a, ht2b⟩ := rowContainsDay_true hyday
      have hroomeq : x.roomId = y.roomId := by
        rw [beq_iff_eq] at hxroom hyroom
        rw [hxroom, hyroom]
      exact hnool hroomeq I1 O1 I2 O2 hr1 hr2 ⟨by omega, by omega⟩

/-- A concrete create payload used by witnesses. -/
def witnessPayload : BookingPayload := ⟨5, "2030-06-10", "2030-06-12", none⟩

/-- The store after creating one booking from the empty store. -/
def witnessState : BookingStore :=
  ⟨[⟨1, 5, "2030-06-10", "2030-06-12", "confirmed"⟩],
   [⟨5, "2030-06-10", 1⟩, ⟨5, "2030-06-11", 1⟩]⟩

theorem witnessState_reachable : BookingReachable witnessState :=
  @BookingReachable.create ⟨[], []⟩ witnessState 0 witnessPayload 1 1
    BookingReachable.init
    (by intro b hb; exact absurd hb (by simp))
    (by rfl)

/-- Witness for C1 at a concrete reachable state and a concrete
`(room, day)`. -/
theorem claim_C1_no_double_booking_witness :
    (witnessState.bookings.filter (fun b =>
      b.status == "confirmed" && b.roomId == 5 && rowContainsDay b 887640)).length ≤ 1 :=
  claim_C1_no_double_booking witnessState_reachable 5 887640

/-- C9: booking rows written by the public mutation operations are always
`status = "confirmed"` — in every reachable store state no booking row has
status `"cancelled"` (`CreateBooking` sets the status unconditionally and
`UpdateBookingByID` strips any caller-supplied status and re-sets it). -/
theorem claim_C9_status_always_confirmed {st : BookingStore}
    (hre : BookingReachable st) :
    ∀ b ∈ st.bookings, b.status = "confirmed" ∧ b.status ≠ "cancelled" := by
  have inv := BookingInv_reachable hre
  intro b hb
  refine ⟨inv.confirmed b hb, ?_⟩
  rw [inv.confirmed b hb]
  intro h
  exact absurd h (by decide)

/-- Witness for C9 at a concrete reachable state. -/
theorem claim_C9_status_always_confirmed_witness :
    (⟨1, 5, "2030-06-10", "2030-06-12", "confirmed"⟩ : BookingRow).status = "confirmed" ∧
    (⟨1, 5, "2030-06-10", "2030-06-12", "confirmed"⟩ : BookingRow).status ≠ "cancelled" :=
  claim_C9_status_always_confirmed witnessState_reachable _ (by simp [witnessState])

/-- The conflict check reports a conflict whenever some calendar slot of the
requested room lies among the requested nights (no exclusion). -/
theorem hasBookingConflict_true_of_slot {st : BookingStore} {room : Nat}
    {ci co : String} {I O : CivilDate}
    (hp : parseBookingDateRange ci co = .ok (I, O))
    {s : SlotRow} (hs : s ∈ st.calendar) (hroom : s.roomId = room)
    (hday : s.day ∈ slotsFrom O I) :
    hasBookingConflict st room ci co none = .ok true := by
  unfold hasBookingConflict
  rw [hp]
  simp only
  rw [if_pos ?hit]
  case hit =>
    rw [Bool.and_eq_true]
    constructor
    · cases hsl : slotsFrom O I with
      | nil => rw [hsl] at hday; exact absurd hday (by simp)
      | cons a t => rfl
    · rw [List.any_eq_true]
      refine ⟨s, hs, ?_⟩
      rw [Bool.and_eq_true, Bool.and_eq_true]
      refine ⟨⟨by simp [hroom], ?_⟩, rfl⟩
      rw [List.contains_iff_exists_mem_beq]
      exact ⟨s.day, hday, by simp⟩

/-- The all-or-nothing view of a create call: the post-state on commit, the
unchanged pre-state on abort (the `runAtomically` contract). -/
def createBookingAtomic (st : BookingStore) (today : Nat)
    (payload : BookingPayload) (newId : Nat) :
    BookingStore × Except BookingError Nat :=
  match CreateBooking st today payload newId with
  | .ok (r, st2) => (st2, .ok r)
  | .error e => (st, .error e)

/-- The HTTP mapping of `createBookingAPI` (internal/handlers): 201 on
success, 409 `booking_conflict` on `ErrBookingConflict`, 400
`validation_error` on `ErrInvalidBookingPayload`, 500 for unexpected
errors. -/
def createBookingStatus : Except BookingError Nat → Nat × Option String
  | .ok _ => (201, none)
  | .error .conflict => (409, some "booking_conflict")
  | .error (.validation _) => (400, some "validation_error")
  | .error (.dateParse _) => (500, none)
  | .error .duplicateKey => (500, none)

/-- C5: a create call whose requested nights collide with an existing
calendar slot of the same room fails with `BookingConflict`, the HTTP
adapter answers 409 `booking_conflict`, and no booking row and no calendar
slot from the call persist: the atomic unit returns the unchanged
pre-state. -/
theorem claim_C5_conflict_atomic (st : BookingStore) (today : Nat)
    (payload : BookingPayload) (newId : Nat) {I O : CivilDate}
    (hp : parseBookingDateRange (trimString payload.checkIn)
      (trimString payload.checkOut) = .ok (I, O))
    (htoday : ¬(I.toDays < today))
    (s : SlotRow) (hs : s ∈ st.calendar) (hroom : s.roomId = payload.roomId)
    (hday : s.day ∈ slotsFrom O I) :
    CreateBooking st today payload newId = .error .conflict ∧
    createBookingAtomic st today payload newId = (st, .error .conflict) ∧
    createBookingStatus (createBookingAtomic st today payload newId).2 =
      (409, some "booking_conflict") := by
  have hconf := hasBookingConflict_true_of_slot hp hs hroom hday
  have hcreate : CreateBooking st today payload newId = .error .conflict := by
    unfold CreateBooking
    simp only
    rw [hp]
    simp only
    rw [if_neg htoday, hconf]
  refine ⟨hcreate, ?_, ?_⟩
  · unfold createBookingAtomic
    rw [hcreate]
  · unfold createBookingAtomic
    rw [hcreate]
    rfl

/-- Witness for C5 at a concrete store containing a colliding slot. -/
theorem claim_C5_conflict_atomic_witness :
    CreateBooking witnessState 0 witnessPayload 2 = .error .conflict ∧
    createBookingAtomic witnessState 0 witnessPayload 2 =
      (witnessState, .error .conflict) ∧
    createBookingStatus (createBookingAtomic witnessState 0 witnessPayload 2).2 =
      (409, some "booking_conflict") :=
  @claim_C5_conflict_atomic witnessState 0 witnessPayload 2
    witnessDate1 witnessDate2
    (by rfl) (by decide) ⟨5, "2030-06-10", 1⟩ (by simp [witnessState]) rfl
    (by decide)

/-! ## Presence admission (internal/models/presence.go)

Rows of the `hotel_presence` collection.  Timestamps are `Int` values in
seconds (`time.Duration` arguments are modelled in seconds as well, which
is how the configuration expresses them); `updatedAt`/`createdAt` metadata
fields are not represented.  The unique `(hotelId, slot)` index is the
reachability invariant `PresenceInv`. -/

structure PresenceRow where
  hotelId : Nat
  slot : Nat
  token : String
  userId : String
  expiresAt : Int
  deriving DecidableEq

structure PresenceStore where
  rows : List PresenceRow
  deriving DecidableEq

/-- `normalizePresenceCapacity` (internal/models/presence.go); the result is
the effective slot count, a `Nat` in `[1, 20]`. -/
def normalizePresenceCapacity (capacity : Int) : Nat :=
  if capacity ≤ 0 then 1
  else if 20 < capacity then 20
  else capacity.toNat

/-- `normalizePresenceTTL` (internal/models/presence.go), in seconds. -/
def normalizePresenceTTL (ttl : Int) : Int :=
  if ttl ≤ 0 then 60 else ttl

/-- Mongo `UpdateOne`: update the first row matching `p` with `f`; returns
whether a row matched together with the new row list. -/
def updateFirst (p : PresenceRow → Bool) (f : PresenceRow → PresenceRow) :
    List PresenceRow → Bool × List PresenceRow
  | [] => (false, [])
  | r :: t =>
    if p r then (true, f r :: t)
    else
      let rec2 := updateFirst p f t
      (rec2.1, r :: rec2.2)

/-- The first loop of `AcquireHotelPresence`: for each slot, refresh the row
already holding this token for this hotel (idempotent re-acquire). -/
def acquireRefreshLoop (hotelId : Nat) (token userId : String)
    (expiresAt : Int) (st : PresenceStore) :
    List Nat → Option (Nat × PresenceStore)
  | [] => none
  | slot :: rest =>
    match updateFirst
        (fun r => r.hotelId == hotelId && r.slot == slot && r.token == token)
        (fun r => { r with expiresAt := expiresAt, userId := userId })
        st.rows with
    | (true, rows2) => some (slot, ⟨rows2⟩)
    | (false, _) => acquireRefreshLoop hotelId token userId expiresAt st rest

/-- The second loop of `AcquireHotelPresence`: for each slot, an atomic
`FindOneAndUpdate` upsert keyed on `(hotelId, slot)` whose filter also
requires the row to be ours, expired or absent.  When the key exists but
the filter does not match, Mongo raises a duplicate-key error; the Go code
then re-tries the refresh, which cannot match (the present row holds a
different token), and continues with the next slot.  In the sequential
model a successful update always leaves our token in the row, so the
post-update token recheck always succeeds. -/
def acquireUpsertLoop (hotelId : Nat) (token userId : String)
    (now expiresAt : Int) (st : PresenceStore) :
    List Nat → Option (Nat × PresenceStore)
  | [] => none
  | slot :: rest =>
    match st.rows.find? (fun r => r.hotelId == hotelId && r.slot == slot) with
    | none =>
      some (slot, ⟨st.rows ++ [⟨hotelId, slot, token, userId, expiresAt⟩]⟩)
    | some r =>
      if r.token == token || decide (r.expiresAt ≤ now) then
        some (slot, ⟨(updateFirst
          (fun r2 => r2.hotelId == hotelId && r2.slot == slot)
          (fun _ => ⟨hotelId, slot, token, userId, expiresAt⟩)
          st.rows).2⟩)
      else
        acquireUpsertLoop hotelId token userId now expiresAt st rest

/-- `AcquireHotelPresence` (internal/models/presence.go).  `now` abstracts
`time.Now()`. -/
def AcquireHotelPresence (st : PresenceStore) (hotelId : Nat)
    (token userId : String) (ttl capacity : Int) (now : Int) :
    Except String ((Bool × Nat) × PresenceStore) :=
  if trimString token = "" then .error "token is required"
  else
    let cap := normalizePresenceCapacity capacity
    let expiresAt := now + normalizePresenceTTL ttl
    let slots := (List.range cap).map (fun i => i + 1)
    match acquireRefreshLoop hotelId (trimString token) (trimString userId)
        expiresAt st slots with
    | some (slot, st2) => .ok ((true, slot), st2)
    | none =>
      match acquireUpsertLoop hotelId (trimString token) (trimString userId)
          now expiresAt st slots with
      | some (slot, st2) => .ok ((true, slot), st2)
      | none => .ok ((false, 0), st)

/-- `HeartbeatHotelPresence` (internal/models/presence.go): extend the
unexpired row of this hotel and token. -/
def HeartbeatHotelPresence (st : PresenceStore) (hotelId : Nat)
    (token userId : String) (ttl : Int) (now : Int) :
    Except String (Bool × PresenceStore) :=
  if trimString token = "" then .error "token is required"
  else
    let expiresAt := now + normalizePresenceTTL ttl
    let upd := updateFirst
      (fun r => r.hotelId == hotelId && r.token == trimString token &&
        decide (now < r.expiresAt))
      (fun r => { r with expiresAt := expiresAt, userId := trimString userId })
      st.rows
    .ok (upd.1, ⟨upd.2⟩)

structure HotelPresenceStatus where
  active : Nat
  capacity : Nat
  canEnter : Bool
  deriving DecidableEq

/-- `GetHotelPresenceStatus` (internal/models/presence.go): count unexpired
rows of the hotel with slot in `[1, capacity]`. -/
def GetHotelPresenceStatus (st : PresenceStore) (hotelId : Nat)
    (capacity : Int) (now : Int) : HotelPresenceStatus :=
  let cap := normalizePresenceCapacity capacity
  let active := (st.rows.filter (fun r =>
    r.hotelId == hotelId && decide (now < r.expiresAt) &&
    decide (1 ≤ r.slot) && decide (r.slot ≤ cap))).length
  ⟨active, cap, active < cap⟩

/-- States reachable by acquire and heartbeat calls under one configured
capacity (tokens, users, TTLs and clock values vary per call). -/
inductive PresenceReachable (capacity : Int) : PresenceStore → Prop
  | init : PresenceReachable capacity ⟨[]⟩
  | acquire {st st2 : PresenceStore} {hotelId : Nat} {token userId : String}
      {ttl now : Int} {g : Bool} {s : Nat}
      (hre : PresenceReachable capacity st)
      (hstep : AcquireHotelPresence st hotelId token userId ttl capacity now =
        .ok ((g, s), st2)) :
      PresenceReachable capacity st2
  | heartbeat {st st2 : PresenceStore} {hotelId : Nat} {token userId : String}
      {ttl now : Int} {m : Bool}
      (hre : PresenceReachable capacity st)
      (hstep : HeartbeatHotelPresence st hotelId token userId ttl now =
        .ok (m, st2)) :
      PresenceReachable capacity st2

/-- The `(hotelId, slot)` key of a presence row. -/
def presenceKey (r : PresenceRow) : Nat × Nat := (r.hotelId, r.slot)

/-- Invariant: slots lie in `[1, effective capacity]` and the unique
`(hotelId, slot)` index holds. -/
structure PresenceInv (capacity : Int) (st : PresenceStore) : Prop where
  slotRange : ∀ r ∈ st.rows,
    1 ≤ r.slot ∧ r.slot ≤ normalizePresenceCapacity capacity
  nodupKeys : st.rows.Pairwise (fun a b => presenceKey a ≠ presenceKey b)

theorem updateFirst_map_key {p : PresenceRow → Bool} {f : PresenceRow → PresenceRow}
    (hp : ∀ r, p r = true → presenceKey (f r) = presenceKey r) :
    ∀ l : List PresenceRow,
      (updateFirst p f l).2.map presenceKey = l.map presenceKey := by
  intro l
  induction l with
  | nil => rfl
  | cons r t ih =>
    unfold updateFirst
    by_cases hpr : p r
    · rw [if_pos hpr]
      simp only [List.map_cons, hp r hpr]
    · rw [if_neg hpr]
      simp only [List.map_cons, ih]

theorem updateFirst_none {p : PresenceRow → Bool} {f : PresenceRow → PresenceRow} :
    ∀ l : List PresenceRow, (∀ r ∈ l, p r = false) → updateFirst p f l = (false, l) := by
  intro l
  induction l with
  | nil => intro _; rfl
  | cons r t ih =>
    intro hall
    unfold updateFirst
    rw [if_neg (by rw [hall r (by simp)]; exact Bool.noConfusion)]
    rw [ih (fun x hx => hall x (by simp [hx]))]

theorem mem_presenceKey_eq_of_pairwise {l : List PresenceRow}
    (hpw : l.Pairwise (fun a b => presenceKey a ≠ presenceKey b))
    {a b : PresenceRow} (ha : a ∈ l) (hb : b ∈ l)
    (h : presenceKey a = presenceKey b) : a = b := by
  by_contra hne
  exact List.Pairwise.forall (fun x y hxy => hxy.symm) hpw ha hb hne h

theorem acquireRefreshLoop_ok {hotelId : Nat} {token userId : String}
    {expiresAt : Int} {st : PresenceStore} :
    ∀ {slots : List Nat} {s : Nat} {st2 : PresenceStore},
      acquireRefreshLoop hotelId token userId expiresAt st slots =
        some (s, st2) →
      s ∈ slots ∧ st2.rows.map presenceKey = st.rows.map presenceKey := by
  intro slots
  induction slots with
  | nil => intro s st2 h; exact Option.noConfusion h
  | cons slot rest ih =>
    intro s st2 h
    unfold acquireRefreshLoop at h
    rcases hu : updateFirst
        (fun r => r.hotelId == hotelId && r.slot == slot && r.token == token)
        (fun r => { r with expiresAt := expiresAt, userId := userId })
        st.rows with ⟨m, rows2⟩
    rw [hu] at h
    cases m
    · simp only at h
      obtain ⟨hmem, hkeys⟩ := ih h
      exact ⟨by simp [hmem], hkeys⟩
    · simp only at h
      injection h with h
      injection h with h1 h2
      subst h1
      refine ⟨by simp, ?_⟩
      rw [← h2]
      show (⟨rows2⟩ : PresenceStore).rows.map presenceKey = _
      have := @updateFirst_map_key
        (fun r => r.hotelId == hotelId && r.slot == slot && r.token == token)
        (fun r => { r with expiresAt := expiresAt, userId := userId })
        (fun r _ => rfl) st.rows
      rw [hu] at this
      exact this

theorem acquireUpsertLoop_ok {hotelId : Nat} {token userId : String}
    {now expiresAt : Int} {st : PresenceStore} :
    ∀ {slots : List Nat} {s : Nat} {st2 : PresenceStore},
      acquireUpsertLoop hotelId token userId now expiresAt st slots =
        some (s, st2) →
      s ∈ slots ∧
      (st2.rows.map presenceKey = st.rows.map presenceKey ∨
        (st2.rows.map presenceKey = st.rows.map presenceKey ++ [(hotelId, s)] ∧
         ∀ k ∈ st.rows.map presenceKey, k ≠ (hotelId, s))) := by
  intro slots
  induction slots with
  | nil => intro s st2 h; exact Option.noConfusion h
  | cons slot rest ih =>
    intro s st2 h
    unfold acquireUpsertLoop at h
    rcases hf : st.rows.find? (fun r => r.hotelId == hotelId && r.slot == slot)
      with _ | r
    · rw [hf] at h
      simp only at h
      injection h with h
      injection h with h1 h2
      refine ⟨by rw [← h1]; simp, Or.inr ⟨?_, ?_⟩⟩
      · rw [← h2, ← h1]
        simp [presenceKey]
      · intro k hk hkeq
        obtain ⟨r0, hr0, hr0k⟩ := List.mem_map.mp hk
        have hnot := List.find?_eq_none.mp hf r0 hr0
        apply hnot
        have hkey : presenceKey r0 = (hotelId, slot) := by rw [hr0k, hkeq, ← h1]
        unfold presenceKey at hkey
        injection hkey with e1 e2
        simp [e1, e2]
    · rw [hf] at h
      simp only at h
      split at h
      · injection h with h
        injection h with h1 h2
        subst h1
        refine ⟨by simp, Or.inl ?_⟩
        rw [← h2]
        show ((updateFirst _ _ st.rows).2.map presenceKey) = _
        apply updateFirst_map_key
        intro r2 hp2
        rw [Bool.and_eq_true, beq_iff_eq, beq_iff_eq] at hp2
        unfold presenceKey
        rw [hp2.1, hp2.2]
      · obtain ⟨hmem, hrest⟩ := ih h
        exact ⟨by simp [hmem], hrest⟩

theorem PresenceInv_of_keys {capacity : Int} {st st2 : PresenceStore}
    (inv : PresenceInv capacity st)
    (h : st2.rows.map presenceKey = st.rows.map presenceKey) :
    PresenceInv capacity st2 := by
  constructor
  · intro r hr
    have hk : presenceKey r ∈ st.rows.map presenceKey := by
      rw [← h]
      exact List.mem_map.mpr ⟨r, hr, rfl⟩
    obtain ⟨r0, hr0, hr0k⟩ := List.mem_map.mp hk
    have hslot : r.slot = r0.slot := by
      unfold presenceKey at hr0k
      injection hr0k with e1 e2
      rw [e2]
    rw [hslot]
    exact inv.slotRange r0 hr0
  · have h2 : (st2.rows.map presenceKey).Pairwise (fun a b => a ≠ b) := by
      rw [h]
      exact (List.pairwise_map).mpr inv.nodupKeys
    exact (List.pairwise_map).mp h2

theorem PresenceInv_insert {capacity : Int} {st st2 : PresenceStore} {s hotelId : Nat}
    (inv : PresenceInv capacity st)
    (hs1 : 1 ≤ s) (hs2 : s ≤ normalizePresenceCapacity capacity)
    (h : st2.rows.map presenceKey = st.rows.map presenceKey ++ [(hotelId, s)])
    (hfresh : ∀ k ∈ st.rows.map presenceKey, k ≠ (hotelId, s)) :
    PresenceInv capacity st2 := by
  constructor
  · intro r hr
    have hk : presenceKey r ∈ st.rows.map presenceKey ++ [(hotelId, s)] := by
      rw [← h]
      exact List.mem_map.mpr ⟨r, hr, rfl⟩
    rcases List.mem_append.mp hk with hk | hk
    · obtain ⟨r0, hr0, hr0k⟩ := List.mem_map.mp hk
      have hslot : r.slot = r0.slot := by
        unfold presenceKey at hr0k
        injection hr0k with e1 e2
        rw [e2]
      rw [hslot]
      exact inv.slotRange r0 hr0
    · have : presenceKey r = (hotelId, s) := by simpa using hk
      unfold presenceKey at this
      injection this with e1 e2
      rw [e2]
      exact ⟨hs1, hs2⟩
  · have h2 : (st2.rows.map presenceKey).Pairwise (fun a b => a ≠ b) := by
      rw [h]
      rw [List.pairwise_append]
      exact ⟨(List.pairwise_map).mpr inv.nodupKeys,
        List.pairwise_singleton _ _,
        fun a ha k hk => by
          have : k = (hotelId, s) := by simpa using hk
          rw [this]
          exact hfresh a ha⟩
    exact (List.pairwise_map).mp h2

theorem PresenceInv_reachable {capacity : Int} {st : PresenceStore}
    (h : PresenceReachable capacity st) : PresenceInv capacity st := by
  induction h with
  | init =>
    exact ⟨fun r hr => absurd hr (by simp), by simp⟩
  | acquire hre hstep ih =>
    rename_i st0 st2 hotelId token userId ttl now g s
    unfold AcquireHotelPresence at hstep
    split at hstep
    · exact Except.noConfusion hstep
    · simp only at hstep
      rcases hr : acquireRefreshLoop hotelId (trimString token)
          (trimString userId) (now + normalizePresenceTTL ttl) st0
          ((List.range (normalizePresenceCapacity capacity)).map (fun i => i + 1))
          with _ | ⟨s2, stA⟩
      · rw [hr] at hstep
        simp only at hstep
        rcases hu : acquireUpsertLoop hotelId (trimString token)
            (trimString userId) now (now + normalizePresenceTTL ttl) st0
            ((List.range (normalizePresenceCapacity capacity)).map (fun i => i + 1))
          with _ | ⟨s3, stB⟩
        · rw [hu] at hstep
          simp only at hstep
          injection hstep with hstep
          injection hstep with h1 h2
          rw [← h2]
          exact ih
        · rw [hu] at hstep
          simp only at hstep
          injection hstep with hstep
          injection hstep with h1 h2
          subst h2
          obtain ⟨hmem, hkeys⟩ := acquireUpsertLoop_ok hu
          obtain ⟨i, hi, hieq⟩ := List.mem_map.mp hmem
          have hibound := List.mem_range.mp hi
          rcases hkeys with hkeys | ⟨hkeys, hfresh⟩
          · exact PresenceInv_of_keys ih hkeys
          · exact PresenceInv_insert ih (by omega) (by omega) hkeys hfresh
      · rw [hr] at hstep
        simp only at hstep
        injection hstep with hstep
        injection hstep with h1 h2
        subst h2
        exact PresenceInv_of_keys ih (acquireRefreshLoop_ok hr).2
  | heartbeat hre hstep ih =>
    rename_i st0 st2 hotelId token userId ttl now m
    unfold HeartbeatHotelPresence at hstep
    split at hstep
    · exact Except.noConfusion hstep
    · simp only at hstep
      injection hstep with hstep
      injection hstep with h1 h2
      subst h2
      refine PresenceInv_of_keys ih ?_
      exact @updateFirst_map_key
        (fun r => r.hotelId == hotelId && r.token == trimString token &&
          decide (now < r.expiresAt))
        (fun r => { r with expiresAt := now + normalizePresenceTTL ttl, userId := trimString userId })
        (fun r _ => rfl) st0.rows

theorem acquireRefreshLoop_none {hotelId : Nat} {token userId : String}
    {expiresAt : Int} {st : PresenceStore} :
    ∀ slots : List Nat,
      (∀ s ∈ slots, ∀ r ∈ st.rows,
        ¬(r.hotelId = hotelId ∧ r.slot = s ∧ r.token = token)) →
      acquireRefreshLoop hotelId token userId expiresAt st slots = none := by
  intro slots
  induction slots with
  | nil => intro _; rfl
  | cons slot rest ih =>
    intro hall
    unfold acquireRefreshLoop
    have hnone : updateFirst
        (fun r => r.hotelId == hotelId && r.slot == slot && r.token == token)
        (fun r => { r with expiresAt := expiresAt, userId := userId })
        st.rows = (false, st.rows) := by
      apply updateFirst_none
      intro r hr
      cases hpr : (r.hotelId == hotelId && r.slot == slot && r.token == token) with
      | false => rfl
      | true =>
        rw [Bool.and_eq_true, Bool.and_eq_true, beq_iff_eq, beq_iff_eq,
          beq_iff_eq] at hpr
        exact absurd ⟨hpr.1.1, hpr.1.2, hpr.2⟩ (hall slot (by simp) r hr)
    rw [hnone]
    exact ih (fun s hs => hall s (by simp [hs]))

theorem acquireUpsertLoop_none {hotelId : Nat} {token userId : String}
    {now expiresAt : Int} {st : PresenceStore}
    (hpw : st.rows.Pairwise (fun a b => presenceKey a ≠ presenceKey b)) :
    ∀ slots : List Nat,
      (∀ s ∈ slots, ∃ r ∈ st.rows, r.hotelId = hotelId ∧ r.slot = s ∧
        r.token ≠ token ∧ now < r.expiresAt) →
      acquireUpsertLoop hotelId token userId now expiresAt st slots = none := by
  intro slots
  induction slots with
  | nil => intro _; rfl
  | cons slot rest ih =>
    intro hall
    obtain ⟨rh, hrh, hh1, hh2, hh3, hh4⟩ := hall slot (by simp)
    unfold acquireUpsertLoop
    rcases hf : st.rows.find? (fun r => r.hotelId == hotelId && r.slot == slot)
      with _ | r0
    · exfalso
      have := List.find?_eq_none.mp hf rh hrh
      apply this
      simp [hh1, hh2]
    · have hp0 := List.find?_some hf
      rw [Bool.and_eq_true, beq_iff_eq, beq_iff_eq] at hp0
      have hr0mem := List.mem_of_find?_eq_some hf
      have hr0eq : r0 = rh := by
        apply mem_presenceKey_eq_of_pairwise hpw hr0mem hrh
        unfold presenceKey
        rw [hp0.1, hp0.2, hh1, hh2]
      simp only [hf]
      rw [if_neg ?cond]
      case cond =>
        rw [Bool.or_eq_true, beq_iff_eq, decide_eq_true_eq]
        rintro (hc | hc)
        · rw [hr0eq] at hc
          exact hh3 hc
        · rw [hr0eq] at hc
          omega
      exact ih (fun s hs => hall s (by simp [hs]))

theorem length_le_of_nodup_bounded {l : List Nat} {m : Nat}
    (hnd : l.Nodup) (hb : ∀ x ∈ l, 1 ≤ x ∧ x ≤ m) : l.length ≤ m := by
  have h1 : l.toFinset ⊆ Finset.Icc 1 m := by
    intro x hx
    exact Finset.mem_Icc.mpr (hb x (List.mem_toFinset.mp hx))
  have h2 := Finset.card_le_card h1
  rw [List.toFinset_card_of_nodup hnd] at h2
  simpa [Nat.card_Icc] using h2

theorem normalizePresenceCapacity_le {c : Int} (hc : 1 ≤ c) :
    (normalizePresenceCapacity c : Int) ≤ c := by
  unfold normalizePresenceCapacity
  split_ifs <;> omega

/-- C7: with a fixed configured capacity of at least 1, in every state
reachable by acquire and heartbeat calls the number of presence rows of a
hotel with `expiresAt > now` never exceeds the capacity; and when every
slot `1..capacity` is held by an unexpired row of a different token, an
acquire call returns `(false, 0)` and leaves the store unchanged. -/
theorem claim_C7_presence_capacity {capacity : Int} {st : PresenceStore}
    (hre : PresenceReachable capacity st) (hcap : 1 ≤ capacity)
    (hotelId : Nat) (now : Int) :
    ((st.rows.filter (fun r =>
      r.hotelId == hotelId && decide (now < r.expiresAt))).length : Int) ≤ capacity ∧
    (∀ token userId : String, ∀ ttl : Int, trimString token ≠ "" →
      (∀ s : Nat, 1 ≤ s → (s : Int) ≤ capacity →
        ∃ r ∈ st.rows, r.hotelId = hotelId ∧ r.slot = s ∧
          r.token ≠ trimString token ∧ now < r.expiresAt) →
      AcquireHotelPresence st hotelId token userId ttl capacity now =
        .ok ((false, 0), st)) := by
  have inv := PresenceInv_reachable hre
  have hncap := normalizePresenceCapacity_le hcap
  constructor
  · have hpl := inv.nodupKeys.filter
      (fun r => r.hotelId == hotelId && decide (now < r.expiresAt))
    have hslots : ((st.rows.filter (fun r =>
        r.hotelId == hotelId && decide (now < r.expiresAt))).map
        (fun r => r.slot)).Nodup := by
      rw [List.Nodup]
      rw [List.pairwise_map]
      apply hpl.imp_of_mem
      intro a b ha hb hk
      have ha2 := (List.mem_filter.mp ha).2
      have hb2 := (List.mem_filter.mp hb).2
      rw [Bool.and_eq_true, beq_iff_eq] at ha2 hb2
      intro hse
      apply hk
      unfold presenceKey
      rw [ha2.1, hb2.1, hse]
    have hbound : ∀ x ∈ (st.rows.filter (fun r =>
        r.hotelId == hotelId && decide (now < r.expiresAt))).map (fun r => r.slot),
        1 ≤ x ∧ x ≤ normalizePresenceCapacity capacity := by
      intro x hx
      obtain ⟨r, hr, hrx⟩ := List.mem_map.mp hx
      rw [← hrx]
      exact inv.slotRange r (List.mem_filter.mp hr).1
    have := length_le_of_nodup_bounded hslots hbound
    rw [List.length_map] at this
    omega
  · intro token userId ttl htok hheld
    unfold AcquireHotelPresence
    rw [if_neg htok]
    simp only
    have hslotrange : ∀ s : Nat,
        s ∈ (List.range (normalizePresenceCapacity capacity)).map (fun i => i + 1) →
        1 ≤ s ∧ (s : Int) ≤ capacity := by
      intro s hs
      obtain ⟨i, hi, hieq⟩ := List.mem_map.mp hs
      rw [List.mem_range] at hi
      omega
    have hrefresh := @acquireRefreshLoop_none hotelId (trimString token)
      (trimString userId) (now + normalizePresenceTTL ttl) st
      ((List.range (normalizePresenceCapacity capacity)).map (fun i => i + 1))
      (fun s hs r hr => by
        rintro ⟨k1, k2, k3⟩
        obtain ⟨hs1, hs2⟩ := hslotrange s hs
        obtain ⟨rh, hrh, hb1, hb2, hb3, _⟩ := hheld s hs1 hs2
        have : r = rh := by
          apply mem_presenceKey_eq_of_pairwise inv.nodupKeys hr hrh
          unfold presenceKey
          rw [k1, k2, hb1, hb2]
        rw [this] at k3
        exact hb3 k3)
    rw [hrefresh]
    have hupsert := @acquireUpsertLoop_none hotelId (trimString token)
      (trimString userId) now (now + normalizePresenceTTL ttl) st
      inv.nodupKeys
      ((List.range (normalizePresenceCapacity capacity)).map (fun i => i + 1))
      (fun s hs => by
        obtain ⟨hs1, hs2⟩ := hslotrange s hs
        exact hheld s hs1 hs2)
    rw [hupsert]

def witnessPresence : PresenceStore := ⟨[⟨7, 1, "other", "", 60⟩]⟩

theorem witnessPresence_reachable : PresenceReachable 1 witnessPresence :=
  @PresenceReachable.acquire 1 ⟨[]⟩ witnessPresence 7 "other" "" 60 0 true 1
    PresenceReachable.init (by rfl)

theorem claim_C7_presence_capacity_witness :
    ((witnessPresence.rows.filter (fun r =>
      r.hotelId == 7 && decide ((0 : Int) < r.expiresAt))).length : Int) ≤ 1 ∧
    AcquireHotelPresence witnessPresence 7 "me" "" 60 1 0 =
      .ok ((false, 0), witnessPresence) := by
  constructor
  · exact (claim_C7_presence_capacity witnessPresence_reachable (by decide) 7 0).1
  · exact (claim_C7_presence_capacity witnessPresence_reachable (by decide) 7 0).2
      "me" "" 60 (by decide)
      (fun s hs1 hs2 => ⟨⟨7, 1, "other", "", 60⟩, by simp [witnessPresence],
        rfl, by show (1 : Nat) = s; omega, by decide, by decide⟩)

/-- C10: presence configuration is clamped on every call: the capacity is
replaced by 1 when nonpositive and by 20 when above 20 (and kept otherwise),
the TTL is replaced by 60 seconds when nonpositive (and kept otherwise);
`AcquireHotelPresence` and `GetHotelPresenceStatus` behave as if called with
the clamped capacity, `HeartbeatHotelPresence` as if called with the clamped
TTL; consequently, for any configured capacity above 20, acquire only ever
grants slots `≤ 20` and the status endpoint reports capacity 20 and counts
only rows with slot in `[1, 20]`. -/
theorem claim_C10_presence_clamping :
    (∀ c : Int, c ≤ 0 → normalizePresenceCapacity c = 1) ∧
    (∀ c : Int, 20 < c → normalizePresenceCapacity c = 20) ∧
    (∀ c : Int, 1 ≤ c → c ≤ 20 → (normalizePresenceCapacity c : Int) = c) ∧
    (∀ t : Int, t ≤ 0 → normalizePresenceTTL t = 60) ∧
    (∀ t : Int, 0 < t → normalizePresenceTTL t = t) ∧
    (∀ st hotelId token userId, ∀ ttl c now : Int, c ≤ 0 →
      AcquireHotelPresence st hotelId token userId ttl c now =
        AcquireHotelPresence st hotelId token userId ttl 1 now) ∧
    (∀ st hotelId, ∀ c now : Int, c ≤ 0 →
      GetHotelPresenceStatus st hotelId c now =
        GetHotelPresenceStatus st hotelId 1 now) ∧
    (∀ st hotelId token userId, ∀ ttl now : Int, ttl ≤ 0 →
      HeartbeatHotelPresence st hotelId token userId ttl now =
        HeartbeatHotelPresence st hotelId token userId 60 now) ∧
    (∀ st hotelId token userId, ∀ ttl c now : Int, ∀ g s st2, 20 < c →
      AcquireHotelPresence st hotelId token userId ttl c now =
        .ok ((g, s), st2) →
      s ≤ 20) ∧
    (∀ st hotelId, ∀ c now : Int, 20 < c →
      (GetHotelPresenceStatus st hotelId c now).capacity = 20 ∧
      (GetHotelPresenceStatus st hotelId c now).active =
        (st.rows.filter (fun r => r.hotelId == hotelId &&
          decide (now < r.expiresAt) && decide (1 ≤ r.slot) &&
          decide (r.slot ≤ 20))).length) := by
  have hcap0 : ∀ c : Int, c ≤ 0 → normalizePresenceCapacity c = 1 := by
    intro c hc
    unfold normalizePresenceCapacity
    rw [if_pos hc]
  have hcap20 : ∀ c : Int, 20 < c → normalizePresenceCapacity c = 20 := by
    intro c hc
    unfold normalizePresenceCapacity
    rw [if_neg (by omega), if_pos hc]
  have hcapid : ∀ c : Int, 1 ≤ c → c ≤ 20 →
      (normalizePresenceCapacity c : Int) = c := by
    intro c h1 h2
    unfold normalizePresenceCapacity
    rw [if_neg (by omega), if_neg (by omega)]
    omega
  have httl0 : ∀ t : Int, t ≤ 0 → normalizePresenceTTL t = 60 := by
    intro t ht
    unfold normalizePresenceTTL
    rw [if_pos ht]
  have httlid : ∀ t : Int, 0 < t → normalizePresenceTTL t = t := by
    intro t ht
    unfold normalizePresenceTTL
    rw [if_neg (by omega)]
  refine ⟨hcap0, hcap20, hcapid, httl0, httlid, ?_, ?_, ?_, ?_, ?_⟩
  · intro st hotelId token userId ttl c now hc
    unfold AcquireHotelPresence
    rw [hcap0 c hc, show normalizePresenceCapacity 1 = 1 from by decide]
  · intro st hotelId c now hc
    unfold GetHotelPresenceStatus
    rw [hcap0 c hc, show normalizePresenceCapacity 1 = 1 from by decide]
  · intro st hotelId token userId ttl now ht
    unfold HeartbeatHotelPresence
    rw [httl0 ttl ht, show normalizePresenceTTL 60 = 60 from by decide]
  · intro st hotelId token userId ttl c now g s st2 hc hstep
    unfold AcquireHotelPresence at hstep
    by_cases htok : trimString token = ""
    · rw [if_pos htok] at hstep
      exact Except.noConfusion hstep
    · rw [if_neg htok] at hstep
      simp only at hstep
      rcases hrl : acquireRefreshLoop hotelId (trimString token)
          (trimString userId) (now + normalizePresenceTTL ttl) st
          ((List.range (normalizePresenceCapacity c)).map (fun i => i + 1))
        with _ | ⟨slot, stx⟩
      · rw [hrl] at hstep
        rcases hul : acquireUpsertLoop hotelId (trimString token)
            (trimString userId) now (now + normalizePresenceTTL ttl) st
            ((List.range (normalizePresenceCapacity c)).map (fun i => i + 1))
          with _ | ⟨slot, stx⟩
        · rw [hul] at hstep
          injection hstep with h
          injection h with h1 h2
          injection h1 with hg hs
          omega
        · rw [hul] at hstep
          injection hstep with h
          injection h with h1 h2
          injection h1 with hg hs
          have hmem := (acquireUpsertLoop_ok hul).1
          obtain ⟨i, hi, hieq⟩ := List.mem_map.mp hmem
          rw [List.mem_range, hcap20 c hc] at hi
          omega
      · rw [hrl] at hstep
        injection hstep with h
        injection h with h1 h2
        injection h1 with hg hs
        have hmem := (acquireRefreshLoop_ok hrl).1
        obtain ⟨i, hi, hieq⟩ := List.mem_map.mp hmem
        rw [List.mem_range, hcap20 c hc] at hi
        omega
  · intro st hotelId c now hc
    constructor
    · unfold GetHotelPresenceStatus
      simp only
      exact hcap20 c hc
    · unfold GetHotelPresenceStatus
      simp only
      rw [hcap20 c hc]

/-- Notification documents (internal/models/notifications.go); ObjectIDs are
modelled as `Nat` and timestamps as `Int`. -/
structure NotificationRow where
  id : Nat
  userId : Nat
  isRead : Bool
  readAt : Option Int
  createdAt : Int
  deriving DecidableEq

structure NotifStore where
  notifs : List NotificationRow
  deriving DecidableEq

/-- Mongo `UpdateOne` on the notifications collection: update the first row
matching `p` with `f`, reporting whether a row matched. -/
def updateFirstNotification (p : NotificationRow → Bool)
    (f : NotificationRow → NotificationRow) :
    List NotificationRow → Bool × List NotificationRow
  | [] => (false, [])
  | r :: t =>
    if p r then (true, f r :: t)
    else ((updateFirstNotification p f t).1,
      r :: (updateFirstNotification p f t).2)

/-- `MarkAllNotificationsRead` (internal/models/notifications.go):
`UpdateMany` with filter `{userId, isRead: false}` and
`$set {isRead: true, readAt: now}`; returns the modified count. -/
def MarkAllNotificationsRead (st : NotifStore) (userId : Nat) (now : Int) :
    Nat × NotifStore :=
  ((st.notifs.filter (fun n => n.userId == userId && !n.isRead)).length,
   ⟨st.notifs.map (fun n =>
     if n.userId == userId && !n.isRead then
       { n with isRead := true, readAt := some now }
     else n)⟩)

/-- The `{_id, userId}` filter of `MarkNotificationRead`; it carries no
`isRead` condition. -/
def markReadFilter (notificationId userId : Nat) : NotificationRow → Bool :=
  fun n => n.id == notificationId && n.userId == userId

/-- The `$set {isRead: true, readAt: now}` update of `MarkNotificationRead`. -/
def markReadSet (now : Int) : NotificationRow → NotificationRow :=
  fun n => { n with isRead := true, readAt := some now }

/-- `MarkNotificationRead` (internal/models/notifications.go):
`UpdateOne` with filter `{_id, userId}`; `ErrNotificationNotFound` when no
row matches. -/
def MarkNotificationRead (st : NotifStore) (userId notificationId : Nat)
    (now : Int) : Except String NotifStore :=
  if (updateFirstNotification (markReadFilter notificationId userId)
      (markReadSet now) st.notifs).1 then
    .ok ⟨(updateFirstNotification (markReadFilter notificationId userId)
      (markReadSet now) st.notifs).2⟩
  else .error "notification not found"

/-- The unread counter returned by `ListNotifications`
(internal/models/notifications.go): `CountDocuments {userId, isRead: false}`. -/
def unreadCount (st : NotifStore) (userId : Nat) : Nat :=
  (st.notifs.filter (fun n => n.userId == userId && !n.isRead)).length

theorem notifFilter_eq_nil_of_false {p : NotificationRow → Bool} :
    ∀ l : List NotificationRow, (∀ n ∈ l, p n = false) → l.filter p = [] := by
  intro l
  induction l with
  | nil => intro _; rfl
  | cons r t ih =>
    intro h
    rw [List.filter_cons, h r (by simp)]
    rw [if_neg (fun hc => Bool.noConfusion hc)]
    exact ih (fun x hx => h x (by simp [hx]))

theorem notifMap_eq_self_of_eq {f : NotificationRow → NotificationRow} :
    ∀ l : List NotificationRow, (∀ n ∈ l, f n = n) → l.map f = l := by
  intro l
  induction l with
  | nil => intro _; rfl
  | cons r t ih =>
    intro h
    show f r :: t.map f = r :: t
    rw [h r (by simp), ih (fun x hx => h x (by simp [hx]))]

theorem markAll_pred_false (st : NotifStore) (userId : Nat) (now : Int) :
    ∀ n ∈ (MarkAllNotificationsRead st userId now).2.notifs,
      (n.userId == userId && !n.isRead) = false := by
  intro n hn
  unfold MarkAllNotificationsRead at hn
  obtain ⟨m, hm, hmn⟩ := List.mem_map.mp hn
  by_cases hp : (m.userId == userId && !m.isRead) = true
  · rw [if_pos hp] at hmn
    rw [← hmn]
    simp
  · rw [if_neg hp] at hmn
    rw [← hmn]
    cases hpr : (m.userId == userId && !m.isRead) with
    | false => rfl
    | true => exact absurd hpr hp

theorem markAll_stable {st : NotifStore} {userId : Nat} {now2 : Int}
    (h : ∀ n ∈ st.notifs, (n.userId == userId && !n.isRead) = false) :
    MarkAllNotificationsRead st userId now2 = (0, st) := by
  unfold MarkAllNotificationsRead
  rw [notifFilter_eq_nil_of_false st.notifs h]
  rw [notifMap_eq_self_of_eq st.notifs (fun n hn =>
    if_neg (fun hc => Bool.noConfusion ((h n hn).symm.trans hc)))]
  rfl

theorem updateFirstNotification_spec {p : NotificationRow → Bool}
    {f : NotificationRow → NotificationRow} :
    ∀ {l : List NotificationRow},
      (updateFirstNotification p f l).1 = true →
      ∃ l1 n l2, l = l1 ++ n :: l2 ∧ (∀ x ∈ l1, p x = false) ∧ p n = true ∧
        (updateFirstNotification p f l).2 = l1 ++ f n :: l2 := by
  intro l
  induction l with
  | nil => intro h; exact Bool.noConfusion h
  | cons r t ih =>
    intro h
    unfold updateFirstNotification at h ⊢
    by_cases hp : p r = true
    · rw [if_pos hp] at h ⊢
      exact ⟨[], r, t, rfl, by simp, hp, rfl⟩
    · rw [if_neg hp] at h ⊢
      obtain ⟨l1, n, l2, he, hl1, hn, h2⟩ := ih h
      refine ⟨r :: l1, n, l2, by rw [List.cons_append, ← he], ?_, hn, ?_⟩
      · intro x hx
        rcases List.mem_cons.mp hx with hx | hx
        · rw [hx]
          cases hpr : p r with
          | false => rfl
          | true => exact absurd hpr hp
        · exact hl1 x hx
      · show r :: (updateFirstNotification p f t).2 = (r :: l1) ++ f n :: l2
        rw [h2, List.cons_append]

theorem updateFirstNotification_append {p : NotificationRow → Bool}
    {f : NotificationRow → NotificationRow} {n : NotificationRow}
    (hn : p n = true) :
    ∀ {l1 : List NotificationRow} (l2 : List NotificationRow),
      (∀ x ∈ l1, p x = false) →
      updateFirstNotification p f (l1 ++ n :: l2) = (true, l1 ++ f n :: l2) := by
  intro l1
  induction l1 with
  | nil =>
    intro l2 _
    show updateFirstNotification p f (n :: l2) = _
    unfold updateFirstNotification
    rw [if_pos hn]
    rfl
  | cons r t ih =>
    intro l2 hall
    show updateFirstNotification p f (r :: (t ++ n :: l2)) = _
    unfold updateFirstNotification
    rw [if_neg (fun hc => Bool.noConfusion ((hall r (by simp)).symm.trans hc))]
    rw [ih l2 (fun x hx => hall x (by simp [hx]))]
    rfl

/-- C8: read-marking is idempotent.  Running `MarkAllNotificationsRead`
twice yields the same notification state as running it once, the second run
reports 0 modified documents, and the unread count of `ListNotifications`
is 0 after the first run; and after a successful `MarkNotificationRead` for
an owned notification, repeating the call succeeds again and leaves the
unread count unchanged. -/
theorem claim_C8_read_marking (st : NotifStore) (userId notificationId : Nat)
    (now now2 : Int) :
    ((MarkAllNotificationsRead
        (MarkAllNotificationsRead st userId now).2 userId now2).1 = 0 ∧
     (MarkAllNotificationsRead
        (MarkAllNotificationsRead st userId now).2 userId now2).2 =
       (MarkAllNotificationsRead st userId now).2 ∧
     unreadCount (MarkAllNotificationsRead st userId now).2 userId = 0) ∧
    (∀ st2 : NotifStore,
      MarkNotificationRead st userId notificationId now = .ok st2 →
      ∃ st3 : NotifStore,
        MarkNotificationRead st2 userId notificationId now2 = .ok st3 ∧
        unreadCount st3 userId = unreadCount st2 userId) := by
  have hfalse := markAll_pred_false st userId now
  have hstable := @markAll_stable (MarkAllNotificationsRead st userId now).2
    userId now2 hfalse
  constructor
  · refine ⟨?_, ?_, ?_⟩
    · rw [hstable]
    · rw [hstable]
    · unfold unreadCount
      rw [notifFilter_eq_nil_of_false _ hfalse]
      rfl
  · intro st2 h2
    unfold MarkNotificationRead at h2
    rcases hu : updateFirstNotification (markReadFilter notificationId userId)
        (markReadSet now) st.notifs with ⟨m, rows2⟩
    rw [hu] at h2
    cases m with
    | false =>
      rw [if_neg (fun hc => Bool.noConfusion hc)] at h2
      exact Except.noConfusion h2
    | true =>
      rw [if_pos rfl] at h2
      injection h2 with h2
      have hu1 : (updateFirstNotification (markReadFilter notificationId userId)
          (markReadSet now) st.notifs).1 = true := by rw [hu]
      obtain ⟨l1, n, l2, hsplit, hl1, hn, hres⟩ :=
        updateFirstNotification_spec hu1
      have hst2 : st2.notifs = l1 ++ markReadSet now n :: l2 := by
        rw [← h2]
        rw [hu] at hres
        exact hres
      have hpfn : markReadFilter notificationId userId (markReadSet now n) =
          true := hn
      have hsecond := @updateFirstNotification_append
        (markReadFilter notificationId userId) (markReadSet now2)
        (markReadSet now n) hpfn l1 l2 hl1
      refine ⟨⟨l1 ++ markReadSet now2 (markReadSet now n) :: l2⟩, ?_, ?_⟩
      · unfold MarkNotificationRead
        rw [hst2]
        rw [hsecond]
        rw [if_pos rfl]
      · unfold unreadCount
        rw [hst2]
        show ((l1 ++ markReadSet now2 (markReadSet now n) :: l2).filter
            (fun x => x.userId == userId && !x.isRead)).length =
          ((l1 ++ markReadSet now n :: l2).filter
            (fun x => x.userId == userId && !x.isRead)).length
        rw [List.filter_append, List.filter_append,
          List.filter_cons, List.filter_cons]
        simp [markReadSet]

def witnessNotifStore : NotifStore :=
  ⟨[⟨1, 1, false, none, 5⟩, ⟨2, 1, false, none, 6⟩, ⟨3, 2, false, none, 7⟩]⟩

theorem claim_C8_read_marking_witness :
    (MarkAllNotificationsRead
        (MarkAllNotificationsRead witnessNotifStore 1 100).2 1 101).1 = 0 ∧
    (∃ st3 : NotifStore,
      MarkNotificationRead
        ⟨[⟨1, 1, false, none, 5⟩, ⟨2, 1, true, some 100, 6⟩,
          ⟨3, 2, false, none, 7⟩]⟩ 1 2 101 = .ok st3 ∧
      unreadCount st3 1 = unreadCount
        ⟨[⟨1, 1, false, none, 5⟩, ⟨2, 1, true, some 100, 6⟩,
          ⟨3, 2, false, none, 7⟩]⟩ 1) := by
  constructor
  · exact (claim_C8_read_marking witnessNotifStore 1 2 100 101).1.1
  · exact (claim_C8_read_marking witnessNotifStore 1 2 100 101).2
      ⟨[⟨1, 1, false, none, 5⟩, ⟨2, 1, true, some 100, 6⟩,
        ⟨3, 2, false, none, 7⟩]⟩ (by rfl)

/-- Waitlist subscription documents.  The base fields follow the insert in
`SubscribeToWaitlist` (internal/models/notifications.go): user, room, the
trimmed date strings, the active flag and `createdAt` (a `Nat` order key for
the `createdAt` sort).  The `kind` and `groupId` fields are the spec's data
model for the waitlist type feature: the copy of notifications.go in this
snapshot predates that feature (its `SubscribeToWaitlist` takes no type
argument while the handler passes one, and `WaitlistMain`/`WaitlistPriority`
and `ErrPriorityAlreadyTaken` exist in store.go and errors.go), so these two
fields are modelled from the spec. -/
structure WaitlistRow where
  id : Nat
  userId : Nat
  roomId : Nat
  checkIn : String
  checkOut : String
  kind : String
  groupId : Option Nat
  isActive : Bool
  createdAt : Nat
  deriving DecidableEq

/-- The `createdAt: 1` Mongo sort, as a stable insertion sort. -/
def insertByCreatedAt (s : WaitlistRow) : List WaitlistRow → List WaitlistRow
  | [] => [s]
  | r :: t =>
    if s.createdAt ≤ r.createdAt then s :: r :: t
    else r :: insertByCreatedAt s t

def sortByCreatedAt : List WaitlistRow → List WaitlistRow
  | [] => []
  | r :: t => insertByCreatedAt r (sortByCreatedAt t)

theorem mem_insertByCreatedAt {x s : WaitlistRow} :
    ∀ {l : List WaitlistRow}, x ∈ insertByCreatedAt s l ↔ x = s ∨ x ∈ l := by
  intro l
  induction l with
  | nil => simp [insertByCreatedAt]
  | cons r t ih =>
    unfold insertByCreatedAt
    by_cases h : s.createdAt ≤ r.createdAt
    · rw [if_pos h]
      simp
    · rw [if_neg h]
      simp only [List.mem_cons, ih]
      tauto

theorem mem_sortByCreatedAt {x : WaitlistRow} :
    ∀ {l : List WaitlistRow}, x ∈ sortByCreatedAt l ↔ x ∈ l := by
  intro l
  induction l with
  | nil => simp [sortByCreatedAt]
  | cons r t ih =>
    unfold sortByCreatedAt
    rw [mem_insertByCreatedAt]
    simp only [List.mem_cons, ih]

theorem sorted_insertByCreatedAt {s : WaitlistRow} :
    ∀ {l : List WaitlistRow},
      l.Pairwise (fun a b => a.createdAt ≤ b.createdAt) →
      (insertByCreatedAt s l).Pairwise (fun a b => a.createdAt ≤ b.createdAt) := by
  intro l
  induction l with
  | nil => intro _; simp [insertByCreatedAt]
  | cons r t ih =>
    intro h
    rw [List.pairwise_cons] at h
    unfold insertByCreatedAt
    by_cases hle : s.createdAt ≤ r.createdAt
    · rw [if_pos hle]
      rw [List.pairwise_cons]
      constructor
      · intro y hy
        rcases List.mem_cons.mp hy with hy | hy
        · rw [hy]
          exact hle
        · exact le_trans hle (h.1 y hy)
      · rw [List.pairwise_cons]
        exact h
    · rw [if_neg hle]
      rw [List.pairwise_cons]
      constructor
      · intro y hy
        rcases mem_insertByCreatedAt.mp hy with hy | hy
        · rw [hy]
          omega
        · exact h.1 y hy
      · exact ih h.2

theorem sorted_sortByCreatedAt :
    ∀ l : List WaitlistRow,
      (sortByCreatedAt l).Pairwise (fun a b => a.createdAt ≤ b.createdAt) := by
  intro l
  induction l with
  | nil => simp [sortByCreatedAt]
  | cons r t ih => exact sorted_insertByCreatedAt ih

theorem find?_sorted_oldest {p : WaitlistRow → Bool} :
    ∀ {l : List WaitlistRow},
      l.Pairwise (fun a b => a.createdAt ≤ b.createdAt) →
      ∀ {s : WaitlistRow}, l.find? p = some s →
      ∀ q ∈ l, p q = true → s.createdAt ≤ q.createdAt := by
  intro l
  induction l with
  | nil => intro _ s hf; exact Option.noConfusion hf
  | cons r t ih =>
    intro hpw s hf q hq hpq
    rw [List.pairwise_cons] at hpw
    cases hpr : p r with
    | true =>
      rw [List.find?_cons_of_pos _ hpr] at hf
      injection hf with hf
      rcases List.mem_cons.mp hq with hq | hq
      · rw [← hf, hq]
      · rw [← hf]
        exact hpw.1 q hq
    | false =>
      rw [List.find?_cons_of_neg _ (by rw [hpr]; exact Bool.noConfusion)] at hf
      rcases List.mem_cons.mp hq with hq | hq
      · rw [hq] at hpq
        exact absurd hpq (by rw [hpr]; exact Bool.noConfusion)
      · exact ih hpw.2 hf q hq hpq

/-- The per-subscription recheck of the dispatcher, from the spec's phase
description: the date range still parses, `checkIn ≥ today`, and the booking
ledger has no conflict for the room and range. -/
def waitlistClean (bst : BookingStore) (today : Nat) (s : WaitlistRow) : Bool :=
  match parseBookingDateRange (trimString s.checkIn) (trimString s.checkOut) with
  | .error _ => false
  | .ok (checkInDate, _) =>
    decide (today ≤ checkInDate.toDays) &&
    (match hasBookingConflict bst s.roomId (trimString s.checkIn)
        (trimString s.checkOut) none with
     | .ok b => !b
     | .error _ => false)

/-- The active subscriptions of one room and kind, oldest first. -/
def activeOfKind (w : List WaitlistRow) (roomId : Nat) (kind : String) :
    List WaitlistRow :=
  sortByCreatedAt (w.filter (fun s =>
    s.roomId == roomId && s.isActive && s.kind == kind))

/-- Deactivate every subscription whose id is listed. -/
def deactivateMany (ids : List Nat) (w : List WaitlistRow) : List WaitlistRow :=
  w.map (fun s => if ids.contains s.id then { s with isActive := false } else s)

/-- The "Room is available now" notification row produced for a
subscription; its `id` is the subscription's id, which stands in for the
correlation the Go code carries in the link and group id. -/
def notificationOf (s : WaitlistRow) (now : Int) : NotificationRow :=
  ⟨s.id, s.userId, false, none, now⟩

structure DispatchResult where
  waitlist : List WaitlistRow
  notifs : List NotificationRow
  notified : List WaitlistRow
  deriving DecidableEq

/-- Modelled from the spec: the two-phase dispatcher `processRoom`.  The
copy of `ProcessWaitlistForRoom` in internal/models/notifications.go
predates the waitlist-kind feature (no phases; see `ProcessWaitlistForRoom`
below for that code), and the spec's source notes reference a priority scan
that is not in this snapshot, so the phases are transcribed from the spec:
phase A takes the oldest clean active priority subscription and stops after
it; phase B runs only when phase A produced nothing and notifies every
clean active main subscription oldest-first; a notified subscription is
deactivated. -/
def ProcessWaitlistForRoomSpec (w : List WaitlistRow) (n : List NotificationRow)
    (bst : BookingStore) (today roomId : Nat) (now : Int) : DispatchResult :=
  match (activeOfKind w roomId "priority").find? (waitlistClean bst today) with
  | some s => ⟨deactivateMany [s.id] w, n ++ [notificationOf s now], [s]⟩
  | none =>
    ⟨deactivateMany (((activeOfKind w roomId "main").filter
        (waitlistClean bst today)).map (fun s => s.id)) w,
     n ++ ((activeOfKind w roomId "main").filter
        (waitlistClean bst today)).map (fun s => notificationOf s now),
     (activeOfKind w roomId "main").filter (waitlistClean bst today)⟩

theorem mem_activeOfKind_iff {w : List WaitlistRow} {roomId : Nat}
    {kind : String} {p : WaitlistRow} :
    p ∈ activeOfKind w roomId kind ↔
      p ∈ w ∧ p.roomId = roomId ∧ p.isActive = true ∧ p.kind = kind := by
  unfold activeOfKind
  rw [mem_sortByCreatedAt, List.mem_filter]
  constructor
  · rintro ⟨hm, hb⟩
    rw [Bool.and_eq_true, Bool.and_eq_true, beq_iff_eq, beq_iff_eq] at hb
    exact ⟨hm, hb.1.1, hb.1.2, hb.2⟩
  · rintro ⟨hm, h1, h2, h3⟩
    refine ⟨hm, ?_⟩
    rw [Bool.and_eq_true, Bool.and_eq_true, beq_iff_eq, beq_iff_eq]
    exact ⟨⟨h1, h2⟩, h3⟩

theorem deactivateMany_inactive {ids : List Nat} {w : List WaitlistRow} :
    ∀ t ∈ deactivateMany ids w, ids.contains t.id = true → t.isActive = false := by
  intro t ht hc
  unfold deactivateMany at ht
  obtain ⟨x, hx, hxt⟩ := List.mem_map.mp ht
  cases h : ids.contains x.id with
  | true =>
    rw [if_pos h] at hxt
    rw [← hxt]
  | false =>
    rw [if_neg (by rw [h]; exact Bool.noConfusion)] at hxt
    rw [← hxt] at hc
    rw [h] at hc
    exact Bool.noConfusion hc

theorem waitlistFilter_eq_nil_of_false {p : WaitlistRow → Bool} :
    ∀ l : List WaitlistRow, (∀ s ∈ l, p s = false) → l.filter p = [] := by
  intro l
  induction l with
  | nil => intro _; rfl
  | cons r t ih =>
    intro h
    rw [List.filter_cons, h r (by simp)]
    rw [if_neg (fun hc => Bool.noConfusion hc)]
    exact ih (fun x hx => h x (by simp [hx]))

/-- C2: two-phase dispatch of the spec-modelled `processRoom`: at most one
priority subscription is notified and it alone (phase A stops after the
first success), that subscription is the oldest clean active priority
subscription of the room, main subscriptions are notified only when no
active priority subscription of the room is clean, every notified
subscription is an active clean subscription of the room and ends up
deactivated, and notified subscriptions are FIFO by `createdAt`. -/
theorem claim_C2_two_phase_dispatch (w : List WaitlistRow)
    (n : List NotificationRow) (bst : BookingStore) (today roomId : Nat)
    (now : Int) :
    ((ProcessWaitlistForRoomSpec w n bst today roomId now).notified.filter
      (fun s => s.kind == "priority")).length ≤ 1 ∧
    (∀ p ∈ (ProcessWaitlistForRoomSpec w n bst today roomId now).notified,
      p.kind = "priority" →
      (ProcessWaitlistForRoomSpec w n bst today roomId now).notified = [p] ∧
      p ∈ w ∧ p.isActive = true ∧ p.roomId = roomId ∧
      waitlistClean bst today p = true ∧
      (∀ q ∈ w, q.isActive = true → q.roomId = roomId → q.kind = "priority" →
        waitlistClean bst today q = true → p.createdAt ≤ q.createdAt)) ∧
    (∀ m ∈ (ProcessWaitlistForRoomSpec w n bst today roomId now).notified,
      m.kind = "main" →
      m ∈ w ∧ m.isActive = true ∧ m.roomId = roomId ∧
      waitlistClean bst today m = true ∧
      (∀ q ∈ w, q.isActive = true → q.roomId = roomId → q.kind = "priority" →
        waitlistClean bst today q = false)) ∧
    ((ProcessWaitlistForRoomSpec w n bst today roomId now).notified.map
      (fun s => s.createdAt)).Pairwise (· ≤ ·) ∧
    (∀ s ∈ (ProcessWaitlistForRoomSpec w n bst today roomId now).notified,
      ∀ t ∈ (ProcessWaitlistForRoomSpec w n bst today roomId now).waitlist,
      t.id = s.id → t.isActive = false) := by
  rcases hfa : (activeOfKind w roomId "priority").find? (waitlistClean bst today)
    with _ | s
  · -- phase A empty: phase B notifies the clean mains
    simp only [ProcessWaitlistForRoomSpec, hfa]
    have hnoprio : ∀ q ∈ w, q.isActive = true → q.roomId = roomId →
        q.kind = "priority" → waitlistClean bst today q = false := by
      intro q hq h1 h2 h3
      have hmem : q ∈ activeOfKind w roomId "priority" :=
        mem_activeOfKind_iff.mpr ⟨hq, h2, h1, h3⟩
      have := List.find?_eq_none.mp hfa q hmem
      cases hc : waitlistClean bst today q with
      | false => rfl
      | true => exact absurd hc this
    have hmm : ∀ m ∈ (activeOfKind w roomId "main").filter
        (waitlistClean bst today),
        m ∈ w ∧ m.isActive = true ∧ m.roomId = roomId ∧
        waitlistClean bst today m = true := by
      intro m hm
      have h1 := List.mem_filter.mp hm
      have h2 := mem_activeOfKind_iff.mp h1.1
      exact ⟨h2.1, h2.2.2.1, h2.2.1, h1.2⟩
    refine ⟨?_, ?_, ?_, ?_, ?_⟩
    · have hnilp : (((activeOfKind w roomId "main").filter
          (waitlistClean bst today)).filter (fun s => s.kind == "priority")) = [] := by
        apply waitlistFilter_eq_nil_of_false
        intro s hs
        have hmain := (mem_activeOfKind_iff.mp (List.mem_filter.mp hs).1).2.2.2
        cases hb : s.kind == "priority" with
        | false => rfl
        | true =>
          rw [beq_iff_eq] at hb
          rw [hmain] at hb
          exact absurd hb (by decide)
      rw [hnilp]
      exact Nat.zero_le 1
    · intro p hp hpk
      have hmain := (mem_activeOfKind_iff.mp (List.mem_filter.mp hp).1).2.2.2
      rw [hpk] at hmain
      exact absurd hmain (by decide)
    · intro m hm _
      exact ⟨(hmm m hm).1, (hmm m hm).2.1, (hmm m hm).2.2.1, (hmm m hm).2.2.2,
        hnoprio⟩
    · rw [List.pairwise_map]
      exact (sorted_sortByCreatedAt _).filter (waitlistClean bst today)
    · intro s hs t ht htid
      refine deactivateMany_inactive t ht ?_
      have : s.id ∈ ((activeOfKind w roomId "main").filter
          (waitlistClean bst today)).map (fun x => x.id) :=
        List.mem_map.mpr ⟨s, hs, rfl⟩
      rw [htid]
      exact List.elem_iff.mpr this
  · -- phase A found the winner s
    simp only [ProcessWaitlistForRoomSpec, hfa]
    have hsmem := List.mem_of_find?_eq_some hfa
    have hsdec := mem_activeOfKind_iff.mp hsmem
    have hsclean := List.find?_some hfa
    refine ⟨?_, ?_, ?_, ?_, ?_⟩
    · simpa using List.length_filter_le (fun x => x.kind == "priority") [s]
    · intro p hp _
      have hps : p = s := by
        rcases List.mem_cons.mp hp with h | h
        · exact h
        · exact absurd h (List.not_mem_nil p)
      subst hps
      refine ⟨rfl, hsdec.1, hsdec.2.2.1, hsdec.2.1, hsclean, ?_⟩
      intro q hq h1 h2 h3 hclean
      exact find?_sorted_oldest (sorted_sortByCreatedAt _) hfa q
        (mem_activeOfKind_iff.mpr ⟨hq, h2, h1, h3⟩) hclean
    · intro m hm hmk
      have hms : m = s := by
        rcases List.mem_cons.mp hm with h | h
        · exact h
        · exact absurd h (List.not_mem_nil m)
      rw [hms] at hmk
      rw [hsdec.2.2.2] at hmk
      exact absurd hmk (by decide)
    · simp
    · intro x hx t ht htid
      have hxs : x = s := by
        rcases List.mem_cons.mp hx with h | h
        · exact h
        · exact absurd h (List.not_mem_nil x)
      refine deactivateMany_inactive t ht ?_
      rw [htid, hxs]
      exact List.elem_iff.mpr (by simp)

def witnessPrioritySub : WaitlistRow :=
  ⟨1, 9, 5, "2030-06-10", "2030-06-12", "priority", some 7, true, 20⟩

def witnessMainSub : WaitlistRow :=
  ⟨2, 8, 5, "2030-06-10", "2030-06-12", "main", none, true, 10⟩

theorem claim_C2_two_phase_dispatch_witness :
    (ProcessWaitlistForRoomSpec [witnessPrioritySub, witnessMainSub] []
      ⟨[], []⟩ 0 5 0).notified = [witnessPrioritySub] := by
  exact ((claim_C2_two_phase_dispatch [witnessPrioritySub, witnessMainSub] []
    ⟨[], []⟩ 0 5 0).2.1 witnessPrioritySub (by decide) (by rfl)).1

/-- Mongo `UpdateOne` on the waitlist collection. -/
def updateFirstWaitlist (p : WaitlistRow → Bool)
    (f : WaitlistRow → WaitlistRow) :
    List WaitlistRow → Bool × List WaitlistRow
  | [] => (false, [])
  | r :: t =>
    if p r then (true, f r :: t)
    else ((updateFirstWaitlist p f t).1, r :: (updateFirstWaitlist p f t).2)

/-- The writes of one `ProcessWaitlistForRoom` run, in issue order. -/
inductive WaitlistEvent where
  | deactivate (subId : Nat)
  | insertNotif (subId : Nat)
  | reactivate (subId : Nat)
  deriving DecidableEq

structure WaitlistRunResult where
  waitlist : List WaitlistRow
  notifs : List NotificationRow
  created : Nat
  events : List WaitlistEvent
  failed : Bool
  deriving DecidableEq

/-- The loop body of `ProcessWaitlistForRoom`
(internal/models/notifications.go): for each subscription of the snapshot,
re-parse the dates (skip on error), conflict-check (skip on conflict, abort
on error), deactivate via `UpdateOne {_id, isActive: true}` (skip when
nothing matched), then insert the notification; when the notification
insert fails (`failNotif`), compensate by reactivating via
`UpdateOne {_id}` and abort. -/
def processLoop (bst : BookingStore) (roomId : Nat) (now : Int)
    (failNotif : Nat → Bool) :
    List WaitlistRow → List WaitlistRow → List NotificationRow → Nat →
    List WaitlistEvent → WaitlistRunResult
  | [], w, n, created, evs => ⟨w, n, created, evs, false⟩
  | s :: rest, w, n, created, evs =>
    match parseBookingDateRange (trimString s.checkIn) (trimString s.checkOut) with
    | .error _ => processLoop bst roomId now failNotif rest w n created evs
    | .ok _ =>
      match hasBookingConflict bst roomId (trimString s.checkIn)
          (trimString s.checkOut) none with
      | .error _ => ⟨w, n, created, evs, true⟩
      | .ok true => processLoop bst roomId now failNotif rest w n created evs
      | .ok false =>
        match updateFirstWaitlist (fun r => r.id == s.id && r.isActive)
            (fun r => { r with isActive := false }) w with
        | (false, _) => processLoop bst roomId now failNotif rest w n created evs
        | (true, w2) =>
          if failNotif s.id then
            ⟨(updateFirstWaitlist (fun r => r.id == s.id)
                (fun r => { r with isActive := true }) w2).2,
             n, created, evs ++ [.deactivate s.id, .reactivate s.id], true⟩
          else
            processLoop bst roomId now failNotif rest w2
              (n ++ [notificationOf s now]) (created + 1)
              (evs ++ [.deactivate s.id, .insertNotif s.id])

/-- `ProcessWaitlistForRoom` (internal/models/notifications.go): snapshot
the room's active subscriptions sorted by `createdAt` ascending (limit
300), then run the loop.  `failNotif` injects the notification-insert
failure of a Mongo error; the event list records the write order. -/
def ProcessWaitlistForRoom (w : List WaitlistRow) (n : List NotificationRow)
    (bst : BookingStore) (roomId : Nat) (now : Int) (failNotif : Nat → Bool) :
    WaitlistRunResult :=
  processLoop bst roomId now failNotif
    ((sortByCreatedAt (w.filter (fun s => s.roomId == roomId && s.isActive))).take 300)
    w n 0 []

/-- Whether every `deactivate` of the trace is preceded by the `insertNotif`
of the same subscription — the write order the spec's I5 prescribes. -/
def notifBeforeDeactAux (seen : List Nat) : List WaitlistEvent → Bool
  | [] => true
  | .insertNotif subId :: t => notifBeforeDeactAux (subId :: seen) t
  | .deactivate subId :: t => seen.contains subId && notifBeforeDeactAux seen t
  | .reactivate _ :: t => notifBeforeDeactAux seen t

def notifInsertPrecedesDeactivation (tr : List WaitlistEvent) : Bool :=
  notifBeforeDeactAux [] tr

def waitlistCounterexampleRow : WaitlistRow :=
  ⟨1, 9, 5, "2030-06-10", "2030-06-12", "main", none, true, 10⟩

/-- C4 counterexample: a run of the dispatcher over one clean subscription
issues the deactivation first and the notification insert second, so the
claimed "notification insert precedes the subscription deactivation" order
is violated by the very first successful dispatch. -/
theorem claim_C4_order_counterexample :
    (ProcessWaitlistForRoom [waitlistCounterexampleRow] [] ⟨[], []⟩ 5 0
      (fun _ => false)).events =
      [.deactivate 1, .insertNotif 1] ∧
    notifInsertPrecedesDeactivation [.deactivate 1, .insertNotif 1] = false := by
  exact ⟨rfl, rfl⟩

theorem updateFirstWaitlist_spec {p : WaitlistRow → Bool}
    {f : WaitlistRow → WaitlistRow} :
    ∀ {l : List WaitlistRow},
      (updateFirstWaitlist p f l).1 = true →
      ∃ l1 r l2, l = l1 ++ r :: l2 ∧ (∀ x ∈ l1, p x = false) ∧ p r = true ∧
        (updateFirstWaitlist p f l).2 = l1 ++ f r :: l2 := by
  intro l
  induction l with
  | nil => intro h; exact Bool.noConfusion h
  | cons r t ih =>
    intro h
    unfold updateFirstWaitlist at h ⊢
    by_cases hp : p r = true
    · rw [if_pos hp] at h ⊢
      exact ⟨[], r, t, rfl, by simp, hp, rfl⟩
    · rw [if_neg hp] at h ⊢
      obtain ⟨l1, x, l2, he, hl1, hx, h2⟩ := ih h
      refine ⟨r :: l1, x, l2, by rw [List.cons_append, ← he], ?_, hx, ?_⟩
      · intro y hy
        rcases List.mem_cons.mp hy with hy | hy
        · rw [hy]
          cases hpr : p r with
          | false => rfl
          | true => exact absurd hpr hp
        · exact hl1 y hy
      · show r :: (updateFirstWaitlist p f t).2 = (r :: l1) ++ f x :: l2
        rw [h2, List.cons_append]

theorem updateFirstWaitlist_append {p : WaitlistRow → Bool}
    {f : WaitlistRow → WaitlistRow} {r : WaitlistRow} (hr : p r = true) :
    ∀ {l1 : List WaitlistRow} (l2 : List WaitlistRow),
      (∀ x ∈ l1, p x = false) →
      updateFirstWaitlist p f (l1 ++ r :: l2) = (true, l1 ++ f r :: l2) := by
  intro l1
  induction l1 with
  | nil =>
    intro l2 _
    show updateFirstWaitlist p f (r :: l2) = _
    unfold updateFirstWaitlist
    rw [if_pos hr]
    rfl
  | cons x t ih =>
    intro l2 hall
    show updateFirstWaitlist p f (x :: (t ++ r :: l2)) = _
    unfold updateFirstWaitlist
    rw [if_neg (fun hc => Bool.noConfusion ((hall x (by simp)).symm.trans hc))]
    rw [ih l2 (fun y hy => hall y (by simp [hy]))]
    rfl

theorem updateFirstWaitlist_map_id {p : WaitlistRow → Bool}
    {f : WaitlistRow → WaitlistRow}
    (hf : ∀ r, p r = true → (f r).id = r.id) :
    ∀ l : List WaitlistRow,
      (updateFirstWaitlist p f l).2.map (fun s => s.id) =
        l.map (fun s => s.id) := by
  intro l
  induction l with
  | nil => rfl
  | cons r t ih =>
    unfold updateFirstWaitlist
    by_cases hp : p r = true
    · rw [if_pos hp]
      simp only [List.map_cons, hf r hp]
    · rw [if_neg hp]
      simp only [List.map_cons, ih]

theorem processLoop_compensation {bst : BookingStore} {roomId : Nat}
    {now : Int} {failNotif : Nat → Bool} {w0 : List WaitlistRow} :
    ∀ (snap w : List WaitlistRow) (n : List NotificationRow)
      (created : Nat) (evs : List WaitlistEvent),
      (w.map (fun s => s.id)).Pairwise (· ≠ ·) →
      (∀ t ∈ w, t.isActive = false →
        (∃ row ∈ w0, row.id = t.id ∧ row.isActive = false) ∨
        (∃ nr ∈ n, nr.id = t.id)) →
      ∀ t2 ∈ (processLoop bst roomId now failNotif snap w n created evs).waitlist,
        t2.isActive = false →
        (∃ row ∈ w0, row.id = t2.id ∧ row.isActive = false) ∨
        (∃ nr ∈ (processLoop bst roomId now failNotif snap w n created evs).notifs,
          nr.id = t2.id) := by
  intro snap
  induction snap with
  | nil =>
    intro w n created evs hnd hinv t2 ht2 hact
    exact hinv t2 ht2 hact
  | cons s rest ih =>
    intro w n created evs hnd hinv t2 ht2 hact
    rcases hp : parseBookingDateRange (trimString s.checkIn)
        (trimString s.checkOut) with e | pr
    · have hstep : processLoop bst roomId now failNotif (s :: rest) w n created evs =
          processLoop bst roomId now failNotif rest w n created evs := by
        conv_lhs => unfold processLoop
        rw [hp]
      rw [hstep] at ht2 ⊢
      exact ih w n created evs hnd hinv t2 ht2 hact
    · rcases hc : hasBookingConflict bst roomId (trimString s.checkIn)
          (trimString s.checkOut) none with e | b
      · have hstep : processLoop bst roomId now failNotif (s :: rest) w n created evs =
            ⟨w, n, created, evs, true⟩ := by
          conv_lhs => unfold processLoop
          rw [hp, hc]
        rw [hstep] at ht2 ⊢
        exact hinv t2 ht2 hact
      · cases b with
        | true =>
          have hstep : processLoop bst roomId now failNotif (s :: rest) w n created evs =
              processLoop bst roomId now failNotif rest w n created evs := by
            conv_lhs => unfold processLoop
            rw [hp, hc]
          rw [hstep] at ht2 ⊢
          exact ih w n created evs hnd hinv t2 ht2 hact
        | false =>
          rcases hup : updateFirstWaitlist (fun r => r.id == s.id && r.isActive)
              (fun r => { r with isActive := false }) w with ⟨m, w2⟩
          cases m with
          | false =>
            have hstep : processLoop bst roomId now failNotif (s :: rest) w n created evs =
                processLoop bst roomId now failNotif rest w n created evs := by
              conv_lhs => unfold processLoop
              rw [hp, hc, hup]
            rw [hstep] at ht2 ⊢
            exact ih w n created evs hnd hinv t2 ht2 hact
          | true =>
            have hu1 : (updateFirstWaitlist (fun r => r.id == s.id && r.isActive)
                (fun r => { r with isActive := false }) w).1 = true := by rw [hup]
            obtain ⟨l1, r, l2, hsplit, hl1, hpr2, hres⟩ :=
              updateFirstWaitlist_spec hu1
            rw [hup] at hres
            have hw2 : w2 = l1 ++ { r with isActive := false } :: l2 := hres
            rw [Bool.and_eq_true, beq_iff_eq] at hpr2
            have hl1id : ∀ x ∈ l1, (x.id == s.id) = false := by
              intro x hx
              have hnd2 := hnd
              rw [hsplit, List.map_append] at hnd2
              have hsep := (List.pairwise_append.mp hnd2).2.2
              have hne : x.id ≠ r.id := by
                refine hsep x.id (List.mem_map.mpr ⟨x, hx, rfl⟩) r.id ?_
                exact List.mem_map.mpr ⟨r, by simp, rfl⟩
              cases hb : x.id == s.id with
              | false => rfl
              | true =>
                rw [beq_iff_eq] at hb
                rw [hpr2.1] at hne
                exact absurd hb hne
            by_cases hfail : failNotif s.id = true
            · have hstep : processLoop bst roomId now failNotif (s :: rest)
                  w n created evs =
                  ⟨(updateFirstWaitlist (fun x => x.id == s.id)
                      (fun x => { x with isActive := true }) w2).2,
                   n, created,
                   evs ++ [.deactivate s.id, .reactivate s.id], true⟩ := by
                conv_lhs => unfold processLoop
                rw [hp, hc, hup]
                simp only
                rw [if_pos hfail]
              rw [hstep] at ht2 ⊢
              have hp2 : (({ r with isActive := false } : WaitlistRow).id ==
                  s.id) = true := by
                rw [beq_iff_eq]
                exact hpr2.1
              have hsecond := @updateFirstWaitlist_append
                (fun x => x.id == s.id) (fun x => { x with isActive := true })
                { r with isActive := false } hp2 l1 l2 hl1id
              rw [hw2] at ht2
              rw [hsecond] at ht2
              have ht2' : t2 ∈ l1 ++
                  ({ { r with isActive := false } with isActive := true } :
                    WaitlistRow) :: l2 := ht2
              rcases List.mem_append.mp ht2' with h | h
              · have hmem : t2 ∈ w := by
                  rw [hsplit]
                  exact List.mem_append_left _ h
                exact hinv t2 hmem hact
              · rcases List.mem_cons.mp h with h | h
                · rw [h] at hact
                  exact Bool.noConfusion hact
                · have hmem : t2 ∈ w := by
                    rw [hsplit]
                    exact List.mem_append_right _ (by simp [h])
                  exact hinv t2 hmem hact
            · have hstep : processLoop bst roomId now failNotif (s :: rest)
                  w n created evs =
                  processLoop bst roomId now failNotif rest w2
                    (n ++ [notificationOf s now]) (created + 1)
                    (evs ++ [.deactivate s.id, .insertNotif s.id]) := by
                conv_lhs => unfold processLoop
                rw [hp, hc, hup]
                simp only
                rw [if_neg hfail]
              rw [hstep] at ht2 ⊢
              have hnd3 : (w2.map (fun x => x.id)).Pairwise (· ≠ ·) := by
                have := @updateFirstWaitlist_map_id
                  (fun r => r.id == s.id && r.isActive)
                  (fun r => { r with isActive := false })
                  (fun x _ => rfl) w
                rw [hup] at this
                have hw2id : w2.map (fun x => x.id) = w.map (fun x => x.id) := this
                rw [hw2id]
                exact hnd
              have hinv3 : ∀ t ∈ w2, t.isActive = false →
                  (∃ row ∈ w0, row.id = t.id ∧ row.isActive = false) ∨
                  (∃ nr ∈ n ++ [notificationOf s now], nr.id = t.id) := by
                intro t ht hf
                rw [hw2] at ht
                rcases List.mem_append.mp ht with h | h
                · have hmem : t ∈ w := by
                    rw [hsplit]
                    exact List.mem_append_left _ h
                  refine (hinv t hmem hf).imp_right ?_
                  rintro ⟨nr, hnr, hid⟩
                  exact ⟨nr, List.mem_append_left _ hnr, hid⟩
                · rcases List.mem_cons.mp h with h | h
                  · refine Or.inr ⟨notificationOf s now, ?_, ?_⟩
                    · exact List.mem_append_right _ (by simp)
                    · show s.id = t.id
                      rw [h]
                      exact hpr2.1.symm
                  · have hmem : t ∈ w := by
                      rw [hsplit]
                      exact List.mem_append_right _ (by simp [h])
                    refine (hinv t hmem hf).imp_right ?_
                    rintro ⟨nr, hnr, hid⟩
                    exact ⟨nr, List.mem_append_left _ hnr, hid⟩
              exact ih w2 (n ++ [notificationOf s now]) (created + 1)
                (evs ++ [.deactivate s.id, .insertNotif s.id]) hnd3 hinv3 t2 ht2 hact

/-- C4 (amended): the dispatcher deactivates first and inserts the
notification second (see `claim_C4_order_counterexample`), but compensation
reactivates the subscription when the notification insert fails, so no run
of `ProcessWaitlistForRoom` — completed or aborted — leaves a subscription
newly deactivated without its notification row: every inactive row of the
final state was already inactive initially or has a notification row. -/
theorem claim_C4_notification_compensation (w : List WaitlistRow)
    (n : List NotificationRow) (bst : BookingStore) (roomId : Nat) (now : Int)
    (failNotif : Nat → Bool)
    (hnd : (w.map (fun s => s.id)).Pairwise (· ≠ ·)) :
    ∀ t2 ∈ (ProcessWaitlistForRoom w n bst roomId now failNotif).waitlist,
      t2.isActive = false →
      (∃ row ∈ w, row.id = t2.id ∧ row.isActive = false) ∨
      (∃ nr ∈ (ProcessWaitlistForRoom w n bst roomId now failNotif).notifs,
        nr.id = t2.id) := by
  intro t2 ht2 hact
  unfold ProcessWaitlistForRoom at ht2 ⊢
  exact processLoop_compensation _ w n 0 [] hnd
    (fun t ht hf => Or.inl ⟨t, ht, rfl, hf⟩) t2 ht2 hact

theorem claim_C4_notification_compensation_witness :
    (∃ row ∈ [waitlistCounterexampleRow], row.id = 1 ∧ row.isActive = false) ∨
    (∃ nr ∈ (ProcessWaitlistForRoom [waitlistCounterexampleRow] [] ⟨[], []⟩ 5 0
        (fun _ => false)).notifs, nr.id = 1) := by
  exact claim_C4_notification_compensation [waitlistCounterexampleRow] []
    ⟨[], []⟩ 5 0 (fun _ => false) (by simp)
    ⟨1, 9, 5, "2030-06-10", "2030-06-12", "main", none, false, 10⟩
    (by decide) (by rfl)

/-- The waitlist error kinds of internal/models/errors.go surfaced by
subscribe: `ErrInvalidWaitlistPayload`, `ErrDuplicateWaitlist`,
`ErrPriorityAlreadyTaken`. -/
inductive WaitlistError where
  | invalidPayload
  | duplicate
  | priorityTaken
  deriving DecidableEq

/-- The `{userId, roomId, checkIn, checkOut, isActive: true}` duplicate
filter of `SubscribeToWaitlist` (internal/models/notifications.go). -/
def waitlistDuplicateFilter (userId roomId : Nat) (ci co : String)
    (s : WaitlistRow) : Bool :=
  s.userId == userId && s.roomId == roomId && s.checkIn == ci &&
    s.checkOut == co && s.isActive

/-- The spec's I3 filter: an active priority subscription of the same
`(room, checkIn, checkOut)`. -/
def waitlistPriorityFilter (roomId : Nat) (ci co : String)
    (s : WaitlistRow) : Bool :=
  s.roomId == roomId && s.checkIn == ci && s.checkOut == co &&
    s.isActive && s.kind == "priority"

/-- Modelled from the spec: `SubscribeToWaitlist` with the waitlist type.
The snapshot's internal/models/notifications.go holds the pre-kind version
of this function (validation, past-date check, duplicate check, insert),
which is embedded as the base here; the kind argument, the priority
admission check (`ErrPriorityAlreadyTaken` of errors.go) and the minted
group id are the spec's "If kind=priority, reject with PriorityAlreadyTaken
if any active priority subscription exists for (room, checkIn, checkOut).
A fresh group id is minted.  Insert the subscription; return its id and (if
priority) group id."  `newId`/`groupId` stand for the generated ObjectIDs,
`today` for the current day number, `createdAt` for `time.Now()`. -/
def SubscribeToWaitlist (w : List WaitlistRow) (today : Nat)
    (userId roomId : Nat) (checkIn checkOut : String) (kind : String)
    (newId groupId createdAt : Nat) :
    Except WaitlistError (Nat × Option Nat × List WaitlistRow) :=
  match parseBookingDateRange (trimString checkIn) (trimString checkOut) with
  | .error _ => .error .invalidPayload
  | .ok (checkInDate, _) =>
    if checkInDate.toDays < today then .error .invalidPayload
    else if w.any (waitlistDuplicateFilter userId roomId (trimString checkIn)
        (trimString checkOut)) then
      .error .duplicate
    else if kind == "priority" && w.any (waitlistPriorityFilter roomId
        (trimString checkIn) (trimString checkOut)) then
      .error .priorityTaken
    else
      .ok (newId, if kind == "priority" then some groupId else none,
        w ++ [⟨newId, userId, roomId, trimString checkIn, trimString checkOut,
          kind, if kind == "priority" then some groupId else none, true,
          createdAt⟩])

/-- Go `strings.ToLower` restricted to ASCII, as the handler's inputs are. -/
def lowerString (s : String) : String :=
  ⟨s.data.map lowerChar⟩

/-- The handler's waitlist type defaulting: lower-cased trimmed `type`,
empty meaning `WaitlistMain`. -/
def effectiveWaitlistType (typeRaw : String) : String :=
  if lowerString (trimString typeRaw) = "" then "main"
  else lowerString (trimString typeRaw)

/-- `subscribeNotificationsAPI` (internal/handlers/notifications.go),
returning the HTTP status, the JSON body as key-value pairs, and the
resulting waitlist state.  The 201 body is `{"id": ..., "message":
"Subscription created"}` — the handler includes no group id. -/
def subscribeNotificationsAPI (w : List WaitlistRow) (today : Nat)
    (userId roomId : Nat) (checkIn checkOut : String) (typeRaw : String)
    (newId groupId createdAt : Nat) :
    Nat × List (String × String) × List WaitlistRow :=
  if effectiveWaitlistType typeRaw ≠ "main" ∧
      effectiveWaitlistType typeRaw ≠ "priority" then
    (400, [("error", "invalid_waitlist_type")], w)
  else
    match SubscribeToWaitlist w today userId roomId checkIn checkOut
        (effectiveWaitlistType typeRaw) newId groupId createdAt with
    | .error .duplicate => (409, [("error", "duplicate_subscription")], w)
    | .error .priorityTaken => (409, [("error", "priority_taken")], w)
    | .error .invalidPayload => (400, [("error", "validation_error")], w)
    | .ok (subId, _, w2) =>
      (201, [("id", Nat.repr subId), ("message", "Subscription created")], w2)

/-- C3 counterexample: a successful priority subscribe answers 201, but the
response body of the handler carries no `group_id` key — only `id` and
`message` — contradicting the claimed `201 {id, group_id}`. -/
theorem claim_C3_group_id_counterexample :
    (subscribeNotificationsAPI [] 0 9 5 "2030-06-10" "2030-06-12" "priority"
      1 7 10).1 = 201 ∧
    List.lookup "group_id" (subscribeNotificationsAPI [] 0 9 5 "2030-06-10"
      "2030-06-12" "priority" 1 7 10).2.1 = none := by
  exact ⟨rfl, rfl⟩

/-- C3 (amended): for a subscribe call with kind `priority` and valid,
non-duplicate payload: when an active priority subscription already exists
for the same room and trimmed dates, the model returns
`ErrPriorityAlreadyTaken` and the handler answers 409
`{error: "priority_taken"}`; otherwise a fresh group id is minted and
stored with the inserted subscription and the model returns the id and the
group id — but the HTTP 201 body exposes only `id` and `message`, no
`group_id`. -/
theorem claim_C3_priority_admission (w : List WaitlistRow) (today : Nat)
    (userId roomId : Nat) (checkIn checkOut : String)
    (newId groupId createdAt : Nat) (I O : CivilDate)
    (hparse : parseBookingDateRange (trimString checkIn) (trimString checkOut) =
      .ok (I, O))
    (htoday : today ≤ I.toDays)
    (hdup : w.any (waitlistDuplicateFilter userId roomId (trimString checkIn)
      (trimString checkOut)) = false) :
    (w.any (waitlistPriorityFilter roomId (trimString checkIn)
        (trimString checkOut)) = true →
      SubscribeToWaitlist w today userId roomId checkIn checkOut "priority"
        newId groupId createdAt = .error .priorityTaken ∧
      subscribeNotificationsAPI w today userId roomId checkIn checkOut
        "priority" newId groupId createdAt =
        (409, [("error", "priority_taken")], w)) ∧
    (w.any (waitlistPriorityFilter roomId (trimString checkIn)
        (trimString checkOut)) = false →
      SubscribeToWaitlist w today userId roomId checkIn checkOut "priority"
        newId groupId createdAt =
        .ok (newId, some groupId,
          w ++ [⟨newId, userId, roomId, trimString checkIn,
            trimString checkOut, "priority", some groupId, true, createdAt⟩]) ∧
      (subscribeNotificationsAPI w today userId roomId checkIn checkOut
        "priority" newId groupId createdAt).1 = 201 ∧
      List.lookup "id" (subscribeNotificationsAPI w today userId roomId
        checkIn checkOut "priority" newId groupId createdAt).2.1 =
        some (Nat.repr newId) ∧
      List.lookup "group_id" (subscribeNotificationsAPI w today userId roomId
        checkIn checkOut "priority" newId groupId createdAt).2.1 = none) := by
  have htype : effectiveWaitlistType "priority" = "priority" := by decide
  have hnotinvalid : ¬(effectiveWaitlistType "priority" ≠ "main" ∧
      effectiveWaitlistType "priority" ≠ "priority") := by
    rw [htype]
    exact fun h => h.2 rfl
  constructor
  · intro hprio
    have hmodel : SubscribeToWaitlist w today userId roomId checkIn checkOut
        "priority" newId groupId createdAt = .error .priorityTaken := by
      unfold SubscribeToWaitlist
      rw [hparse]
      simp only
      rw [if_neg (show ¬(I.toDays < today) from by omega)]
      rw [if_neg (show ¬(w.any (waitlistDuplicateFilter userId roomId
          (trimString checkIn) (trimString checkOut)) = true) from
        fun hc => Bool.noConfusion (hdup.symm.trans hc))]
      rw [if_pos (show (("priority" == "priority") && w.any
          (waitlistPriorityFilter roomId (trimString checkIn)
            (trimString checkOut))) = true from by rw [hprio]; rfl)]
    refine ⟨hmodel, ?_⟩
    unfold subscribeNotificationsAPI
    rw [if_neg hnotinvalid, htype, hmodel]
  · intro hprio
    have hmodel : SubscribeToWaitlist w today userId roomId checkIn checkOut
        "priority" newId groupId createdAt =
        .ok (newId, some groupId,
          w ++ [⟨newId, userId, roomId, trimString checkIn,
            trimString checkOut, "priority", some groupId, true, createdAt⟩]) := by
      unfold SubscribeToWaitlist
      rw [hparse]
      simp only
      rw [if_neg (show ¬(I.toDays < today) from by omega)]
      rw [if_neg (show ¬(w.any (waitlistDuplicateFilter userId roomId
          (trimString checkIn) (trimString checkOut)) = true) from
        fun hc => Bool.noConfusion (hdup.symm.trans hc))]
      rw [if_neg (show ¬((("priority" == "priority") && w.any
          (waitlistPriorityFilter roomId (trimString checkIn)
            (trimString checkOut))) = true) from fun hc => by
        rw [Bool.and_eq_true] at hc
        exact Bool.noConfusion (hprio.symm.trans hc.2))]
      rfl
    refine ⟨hmodel, ?_, ?_, ?_⟩
    · unfold subscribeNotificationsAPI
      rw [if_neg hnotinvalid, htype, hmodel]
    · unfold subscribeNotificationsAPI
      rw [if_neg hnotinvalid, htype, hmodel]
      rfl
    · unfold subscribeNotificationsAPI
      rw [if_neg hnotinvalid, htype, hmodel]
      rfl

theorem claim_C3_priority_admission_witness :
    SubscribeToWaitlist [] 0 9 5 "2030-06-10" "2030-06-12" "priority" 1 7 10 =
      .ok (1, some 7,
        [⟨1, 9, 5, trimString "2030-06-10", trimString "2030-06-12",
          "priority", some 7, true, 10⟩]) ∧
    List.lookup "group_id" (subscribeNotificationsAPI [] 0 9 5 "2030-06-10"
      "2030-06-12" "priority" 1 7 10).2.1 = none := by
  have h := claim_C3_priority_admission [] 0 9 5 "2030-06-10" "2030-06-12"
    1 7 10 witnessDate1 witnessDate2 (by rfl) (Nat.zero_le _) rfl
  exact ⟨(h.2 rfl).1, (h.2 rfl).2.2.2⟩

end EasyBook
